import Mathlib

/-!
Verification development for the gameplay core of `src/Main.py` (class
`GameplayPage`): the market/price model, the deck/hand/market-slot ledger,
the end-turn resolution pipeline and the win/lose resolver.

The Python session state is embedded as the structure `GState`, and each
method that the claims touch is translated into a pure state-transition
function.  Presentation-only data (pixel geometry, images, sounds, fonts,
animation progress fractions) is dropped; timers are modelled by passing the
current tick `now : Nat` explicitly, exactly where the Python code reads
`pygame.time.get_ticks()`.  Randomness (`random.random()*100`, shuffles,
reward choices) is modelled by explicit parameters.  The process-wide reward
bookkeeping (`earned_reward_cards`, boss-reward strings) is outside the
session state; of it we keep only the session-visible effect of
`_reset_earned_cards_for_level`, which sets `self.Dobor = 1`.
-/

namespace Bressoles

/-- Terminal outcome, Python `self.win_lose_state ∈ {None, "win", "lose"}`. -/
inductive Outcome where
  | win
  | lose
deriving DecidableEq, Repr

/-- Price-evolution outcome kind, Python the `'type'` field of an animation
queue entry: `'unchanged' | 'rise' | 'fall'`. -/
inductive MoveKind where
  | unchanged
  | rise
  | fall
deriving DecidableEq, Repr

/-- One entry of the list returned by `update_stock_prices`:
`{'market': 0-2, 'type': ..., 'price_change': int}`. -/
structure AnimEntry where
  market : Nat
  kind : MoveKind
  price_change : Int
deriving DecidableEq, Repr

/-- Python `self.current_price_animation`
(`{'market', 'type', 'frame_idx', 'last_update'}`). -/
structure CurrentAnim where
  market : Nat
  kind : MoveKind
  frame_idx : Nat
  last_update : Nat
deriving DecidableEq, Repr

/-- One planned hand-compaction move, Python an element of
`self.hand_compact_anim` (`card_id`, `from_index`, `to_index`; the screen
positions and the progress fraction are presentation only). -/
structure CompactMove where
  card_id : Nat
  from_index : Nat
  to_index : Nat
deriving DecidableEq, Repr

/-- One card flying into the hand, Python an element of
`self.hand_draw_anim` (`card_id`, `target_slot`; positions and progress are
presentation only). -/
structure DrawAnimEntry where
  card_id : Nat
  target_slot : Nat
deriving DecidableEq, Repr

/-- The session state of `GameplayPage` restricted to the gameplay core.
The per-market dictionaries `{0: {...}, 1: {...}, 2: {...}}` are embedded as
total functions of `(market, slot)`; a missing dictionary key is `none`
(respectively `false` for the lock dictionary, whose Python reads use
`.get(slot)` with falsy default). -/
structure GState where
  Aprice : Int
  BPrice : Int
  CPrice : Int
  Aquantity : Int
  Bquantity : Int
  Cquantity : Int
  StepA : Int
  StepB : Int
  StepC : Int
  Money : Int
  Goal : Int
  Day : Int
  LastTurn : Int
  Dobor : Nat
  hand : Nat
  hand_cards : List (Option Nat)
  deck : List Nat
  pending_draws : Nat
  market_cards : Nat → Nat → Option Nat
  market_card_origins : Nat → Nat → Option Nat
  market_cards_locked : Nat → Nat → Bool
  market_card_turns : Nat → Nat → Option Int
  price_animation_queue : List AnimEntry
  current_price_animation : Option CurrentAnim
  price_animation_interval : Nat
  frames_len : MoveKind → Nat
  cards_11_14_queue : List (Nat × Nat)
  current_card_processing : Option (Nat × Nat)
  card_processing_start_time : Nat
  card_jump_animations : Nat → Nat → Bool
  hand_compact_anim : List CompactMove
  hand_compact_target_hand : Option (List (Option Nat))
  hand_compact_draw_count : Nat
  hand_compact_start_time : Nat
  hand_draw_anim : List DrawAnimEntry
  hand_draw_start_time : Nat
  win_lose_state : Option Outcome
  bottom_frame : Bool

/-- Python `self.card_processing_delay = 300` (set once in `__init__`). -/
def card_processing_delay : Nat := 300

/-- Python `self.hand_compact_duration = 300` (set once in `__init__`). -/
def hand_compact_duration : Nat := 300

/-- Python `self.hand_draw_duration = 400` (set once in `__init__`). -/
def hand_draw_duration : Nat := 400

/-- The legacy-id shim applied at every deck pop and deal:
`if card_id == 0: card_id = 100`. -/
def normalizeCard (c : Nat) : Nat := if c = 0 then 100 else c

/-- Python `self.card_actions` (`__init__`): 11,12 ↦ 2; 13,14 ↦ 4;
15,16 ↦ -2; 17,18 ↦ 2; `.get(card_id, 0)` default 0. -/
def card_actions (c : Nat) : Int :=
  if c = 11 ∨ c = 12 then 2
  else if c = 13 ∨ c = 14 then 4
  else if c = 15 ∨ c = 16 then -2
  else if c = 17 ∨ c = 18 then 2
  else 0

/-- Python `self.card_turns` (`__init__`): 11,13,15,17 ↦ 1; 12,14,16,18 ↦ 2;
a key absent from the dictionary is `none`. -/
def card_turns (c : Nat) : Option Int :=
  if c = 11 ∨ c = 13 ∨ c = 15 ∨ c = 17 then some 1
  else if c = 12 ∨ c = 14 ∨ c = 16 ∨ c = 18 then some 2
  else none

/-- The ability-card ids, Python the tuple `(11, 12, 13, 14, 15, 16, 17, 18)`
tested in `_process_cards_11_14` and friends. -/
def abilityIds : List Nat := [11, 12, 13, 14, 15, 16, 17, 18]

/-- Point update of an option-valued per-market dictionary. -/
def oset (g : Nat → Nat → Option α) (m sl : Nat) (v : Option α) :
    Nat → Nat → Option α :=
  fun m1 sl1 => if m1 = m ∧ sl1 = sl then v else g m1 sl1

/-- Point update of the boolean lock dictionary. -/
def bset (g : Nat → Nat → Bool) (m sl : Nat) (v : Bool) :
    Nat → Nat → Bool :=
  fun m1 sl1 => if m1 = m ∧ sl1 = sl then v else g m1 sl1

/-- The spec contract `applyDelta(market, delta)`:
`price = max(2, price + delta)`. -/
def applyDelta (price delta : Int) : Int := max 2 (price + delta)

/-- The spec contract `applyMultiplier(market, factor)`:
`price = max(2, floor(price * factor))`; the factor is an integer in the
code (`int(price * card_action)` on two ints), so the floor is exact. -/
def applyMultiplier (price factor : Int) : Int := max 2 (price * factor)

/-- Python `GameplayPage._apply_price_change(market, price_change)`:
per-market `new_price = price + price_change; price = max(2, new_price)`. -/
def apply_price_change (market : Nat) (price_change : Int) (s : GState) :
    GState :=
  if market = 0 then { s with Aprice := max 2 (s.Aprice + price_change) }
  else if market = 1 then { s with BPrice := max 2 (s.BPrice + price_change) }
  else if market = 2 then { s with CPrice := max 2 (s.CPrice + price_change) }
  else s

/-- Python `GameplayPage._check_win_lose`.  The side effects of
`_add_reward_card_to_deck` live in process-wide reward lists outside the
session state and are not modelled; of `_reset_earned_cards_for_level` we
keep its session-visible assignment `self.Dobor = 1`. -/
def check_win_lose (s : GState) : GState :=
  match s.win_lose_state with
  | some _ => s
  | none =>
    if s.Day = s.LastTurn then
      if s.Goal ≤ s.Money then { s with win_lose_state := some Outcome.win }
      else { s with win_lose_state := some Outcome.lose, Dobor := 1 }
    else if s.Goal ≤ s.Money then { s with win_lose_state := some Outcome.win }
    else s

/-- Python `GameplayPage.update_stock_prices`: classifies each market from
one uniform draw in `[0,100)` per market and returns the animation queue;
no price is written here (prices are only mutated by
`_apply_price_change` when the corresponding animation starts). -/
def update_stock_prices (s : GState) (rand_a rand_b rand_c : ℚ) :
    List AnimEntry :=
  let entry_a : AnimEntry :=
    if rand_a ≤ 15 then ⟨0, MoveKind.unchanged, 0⟩
    else ⟨0, MoveKind.rise, s.StepA⟩
  let entry_b : AnimEntry :=
    if rand_b ≤ 10 then ⟨1, MoveKind.fall, -s.StepB⟩
    else if rand_b ≤ 30 then ⟨1, MoveKind.unchanged, 0⟩
    else ⟨1, MoveKind.rise, s.StepB⟩
  let entry_c : AnimEntry :=
    if rand_c ≤ 30 then ⟨2, MoveKind.fall, -s.StepC⟩
    else if rand_c ≤ 50 then ⟨2, MoveKind.unchanged, 0⟩
    else ⟨2, MoveKind.rise, s.StepC⟩
  [entry_a, entry_b, entry_c]

/-- Python `GameplayPage._lock_market_cards`: every occupied slot of the
three markets becomes locked. -/
def lock_market_cards (s : GState) : GState :=
  { s with market_cards_locked := fun m sl =>
      if m ≤ 2 ∧ (s.market_cards m sl).isSome then true
      else s.market_cards_locked m sl }

/-- Python `GameplayPage.__init__` restricted to the gameplay core.
`goal` is the externally supplied target, `last_turn` the value computed
from the boss table (8 by default, 7 for the level-2 first boss),
`dobor` the process-wide `global_dobor`, and `shuffled_deck` the deck after
the legacy-id map and `random.shuffle`.  The first 7 cards are dealt into
the fixed-length hand (normalised again on deal) and removed from the deck. -/
def init_state (goal last_turn : Int) (dobor : Nat) (shuffled_deck : List Nat)
    (interval : Nat) (flen : MoveKind → Nat) (bframe : Bool) : GState where
  Aprice := 2
  BPrice := 2
  CPrice := 2
  Aquantity := 2
  Bquantity := 0
  Cquantity := 0
  StepA := 2
  StepB := 4
  StepC := 6
  Money := 0
  Goal := goal
  Day := 1
  LastTurn := last_turn
  Dobor := dobor
  hand := 7
  hand_cards :=
    (shuffled_deck.take 7).map (fun c => some (normalizeCard c)) ++
      List.replicate (7 - (shuffled_deck.take 7).length) none
  deck := shuffled_deck.drop 7
  pending_draws := 0
  market_cards := fun _ _ => none
  market_card_origins := fun _ _ => none
  market_cards_locked := fun _ _ => false
  market_card_turns := fun _ _ => none
  price_animation_queue := []
  current_price_animation := none
  price_animation_interval := interval
  frames_len := flen
  cards_11_14_queue := []
  current_card_processing := none
  card_processing_start_time := 0
  card_jump_animations := fun _ _ => false
  hand_compact_anim := []
  hand_compact_target_hand := none
  hand_compact_draw_count := 0
  hand_compact_start_time := 0
  hand_draw_anim := []
  hand_draw_start_time := 0
  win_lose_state := none
  bottom_frame := bframe

/-- The scan order of `_process_cards_11_14`: markets 0,1,2 and, within a
market, slots 0,1,2. -/
def ability_slots : List (Nat × Nat) :=
  [(0, 0), (0, 1), (0, 2), (1, 0), (1, 1), (1, 2), (2, 0), (2, 1), (2, 2)]

/-- The queue built by `_process_cards_11_14`: slots of `ability_slots`
holding a card with id in 11..18 and `turns_remaining` present and `> 0`. -/
def ability_queue (s : GState) : List (Nat × Nat) :=
  ability_slots.filter fun p =>
    match s.market_cards p.1 p.2 with
    | none => false
    | some cid =>
      abilityIds.contains cid &&
        match s.market_card_turns p.1 p.2 with
        | none => false
        | some t => decide (0 < t)

/-- Python `GameplayPage._process_cards_11_14`: rebuild the queue and, when
it is not empty, pop its head into `current_card_processing` and stamp the
processing start time. -/
def process_cards_11_14 (now : Nat) (s : GState) : GState :=
  match ability_queue s with
  | [] => { s with cards_11_14_queue := [] }
  | h :: t =>
    { s with cards_11_14_queue := t, current_card_processing := some h,
             card_processing_start_time := now }

/-- The price mutation performed by `update_cards_11_14_processing` for one
card: ids 17-18 multiply (`max(2, int(price * card_action))`), the others
add (`max(2, price + card_action)`); `card_action == 0` changes nothing. -/
def apply_card_action (market : Nat) (cid : Nat) (s : GState) : GState :=
  let a := card_actions cid
  if a = 0 then s
  else if cid = 17 ∨ cid = 18 then
    if market = 0 then { s with Aprice := max 2 (s.Aprice * a) }
    else if market = 1 then { s with BPrice := max 2 (s.BPrice * a) }
    else if market = 2 then { s with CPrice := max 2 (s.CPrice * a) }
    else s
  else
    if market = 0 then { s with Aprice := max 2 (s.Aprice + a) }
    else if market = 1 then { s with BPrice := max 2 (s.BPrice + a) }
    else if market = 2 then { s with CPrice := max 2 (s.CPrice + a) }
    else s

/-- Python `GameplayPage.update_cards_11_14_processing` (one frame): wait out
the inter-card delay, then re-check the slot, apply the card action to the
market price, start the cosmetic jump, decrement `turns_remaining`, and move
on to the next queued card. -/
def update_cards_11_14_processing (now : Nat) (s : GState) : GState :=
  match s.current_card_processing with
  | none =>
    match s.cards_11_14_queue with
    | [] => s
    | h :: t =>
      { s with current_card_processing := some h, cards_11_14_queue := t,
               card_processing_start_time := now }
  | some p =>
    if now - s.card_processing_start_time < card_processing_delay then s
    else
      let market := p.1
      let slot := p.2
      let s1 :=
        match s.market_cards market slot with
        | none => s
        | some cid =>
          match s.market_card_turns market slot with
          | none => s
          | some t =>
            if 0 < t then
              let s2 := apply_card_action market cid s
              { s2 with
                card_jump_animations :=
                  bset s2.card_jump_animations market slot true,
                market_card_turns :=
                  oset s2.market_card_turns market slot (some (t - 1)) }
            else s
      match s1.cards_11_14_queue with
      | [] => { s1 with current_card_processing := none }
      | h :: t =>
        { s1 with current_card_processing := some h, cards_11_14_queue := t,
                  card_processing_start_time := now }

/-- Index of the first empty hand slot, Python
`next((i for i, card in enumerate(self.hand_cards) if card is None), None)`. -/
def first_free_hand (h : List (Option Nat)) : Option Nat :=
  h.findIdx? (fun c => c.isNone)

/-- Writes `cards` into `l` at consecutive indices starting at `i`, Python
the loop `self.hand_cards[start + offset] = card`. -/
def fillFrom (l : List (Option Nat)) (i : Nat) (cards : List Nat) :
    List (Option Nat) :=
  match cards with
  | [] => l
  | c :: cs => fillFrom (l.set i (some c)) (i + 1) cs

/-- The `(index, card)` list of occupied hand slots, Python
`[(idx, card) for idx, card in enumerate(self.hand_cards) if card is not None]`. -/
def existing_of (hand_cards : List (Option Nat)) : List (Nat × Nat) :=
  hand_cards.enum.filterMap fun p => p.2.map fun c => (p.1, c)

/-- Python `GameplayPage._draw_pending_cards`: reset any stale compaction
state, plan the left-shift of the hand (or apply it instantly when there is
no bottom frame or nothing moves), and plan the draw of
`min(Dobor, len(deck), free slots)` cards from the front of the deck. -/
def draw_pending_cards (now : Nat) (s0 : GState) : GState :=
  let s := { s0 with hand_compact_anim := [], hand_compact_target_hand := none,
                     hand_compact_draw_count := 0 }
  if s.hand = 0 then { s with pending_draws := 0 }
  else if s.bottom_frame = false then
    let existing_cards := (s.hand_cards.filterMap id).take s.hand
    let hand1 := existing_cards.map some ++
      List.replicate (s.hand - existing_cards.length) none
    let start_idx := existing_cards.length
    let slots_available := s.hand - start_idx
    if 0 < s.Dobor ∧ s.deck ≠ [] ∧ 0 < slots_available then
      let k := min s.Dobor (min s.deck.length slots_available)
      { s with hand_cards := fillFrom hand1 start_idx
                 ((s.deck.take k).map normalizeCard),
               deck := s.deck.drop k, pending_draws := 0 }
    else { s with hand_cards := hand1 }
  else
    let existing0 := existing_of s.hand_cards
    if existing0 = [] then
      if 0 < s.Dobor ∧ 0 < s.deck.length ∧ 0 < s.hand then
        let k := min s.Dobor (min s.deck.length s.hand)
        { s with hand_cards := fillFrom (List.replicate s.hand none) 0
                   ((s.deck.take k).map normalizeCard),
                 deck := s.deck.drop k, pending_draws := 0 }
      else s
    else
      let existing := existing0.take s.hand
      let target := existing.map (fun p => some p.2) ++
        List.replicate (s.hand - existing.length) none
      let moves := existing.enum.filterMap fun q =>
        if q.2.1 = q.1 then none
        else some (CompactMove.mk q.2.2 q.2.1 q.1)
      let free := s.hand - existing.length
      let k : Nat := if 0 < free ∧ 0 < s.deck.length then
                 min s.Dobor (min s.deck.length free) else 0
      if moves = [] then
        let s1 : GState := { s with hand_cards := target }
        if 0 < k ∧ 0 < s1.deck.length then
          let start_idx := existing.length
          { s1 with
            hand_draw_anim := ((s1.deck.take k).map normalizeCard).enum.map
              (fun q => DrawAnimEntry.mk q.2 (start_idx + q.1)),
            hand_draw_start_time := now,
            deck := s1.deck.drop k, pending_draws := 0 }
        else { s1 with pending_draws := 0 }
      else
        { s with hand_compact_anim := moves,
                 hand_compact_target_hand := some target,
                 hand_compact_draw_count := k,
                 hand_compact_start_time := now }

/-- Python `GameplayPage.update_hand_compact_animation` (one frame): while
the 300 ms compaction timer runs only progress fractions change (dropped
from the model); on completion apply the compacted hand, start the draw-in
of the scheduled cards, and clear the compaction state. -/
def update_hand_compact_animation (now : Nat) (s : GState) : GState :=
  match s.hand_compact_anim with
  | [] => s
  | _ :: _ =>
    if hand_compact_duration ≤ now - s.hand_compact_start_time then
      let s1 :=
        match s.hand_compact_target_hand with
        | some t => { s with hand_cards := t }
        | none => s
      let s2 :=
        if 0 < s1.hand_compact_draw_count ∧ 0 < s1.deck.length ∧
            s1.hand_cards.any (fun c => c.isNone) then
          match first_free_hand s1.hand_cards with
          | none => s1
          | some ff =>
            let slots_available := s1.hand - ff
            let k := min s1.hand_compact_draw_count
              (min slots_available s1.deck.length)
            if s1.bottom_frame then
              { s1 with
                hand_draw_anim := ((s1.deck.take k).map normalizeCard).enum.map
                  (fun q => DrawAnimEntry.mk q.2 (ff + q.1)),
                hand_draw_start_time := now,
                deck := s1.deck.drop k }
            else
              { s1 with hand_cards := fillFrom s1.hand_cards ff
                          ((s1.deck.take k).map normalizeCard),
                        deck := s1.deck.drop k }
        else s1
      { s2 with pending_draws := 0, hand_compact_anim := [],
                hand_compact_target_hand := none,
                hand_compact_draw_count := 0 }
    else s

/-- Python `GameplayPage.update_hand_draw_animation` (one frame): on
completion of the 400 ms timer each flying card lands in its target slot
(re-normalising the legacy id 0) and the draw-in state is cleared. -/
def update_hand_draw_animation (now : Nat) (s : GState) : GState :=
  match s.hand_draw_anim with
  | [] => s
  | entries =>
    if hand_draw_duration ≤ now - s.hand_draw_start_time then
      { s with
        hand_cards := entries.foldl (fun h e =>
          if e.target_slot < h.length then
            h.set e.target_slot (some (normalizeCard e.card_id))
          else h) s.hand_cards,
        hand_draw_anim := [] }
    else s

/-- Python `GameplayPage._finish_price_animations_and_advance_day`: clear the
finished price animation, queue the ability cards
(`_process_cards_11_14` only starts their processing), evaluate the outcome,
advance the day (re-evaluating) or force a terminal outcome on the final
day, and schedule the hand compaction/draw. -/
def finish_price_animations_and_advance_day (now : Nat) (s : GState) :
    GState :=
  let s1 := { s with current_price_animation := none }
  let s2 := process_cards_11_14 now s1
  let s3 := check_win_lose s2
  let s4 :=
    if s3.win_lose_state = none then
      if s3.Day < s3.LastTurn then check_win_lose { s3 with Day := s3.Day + 1 }
      else if s3.Goal ≤ s3.Money then
        { s3 with win_lose_state := some Outcome.win }
      else { s3 with win_lose_state := some Outcome.lose, Dobor := 1 }
    else s3
  draw_pending_cards now s4

/-- Starting the next queued price animation: Python the repeated block
`next_anim = queue.pop(0); self._apply_price_change(...);
self.current_price_animation = {...}` — the price mutation for a market
happens exactly here, when its animation begins. -/
def start_next_price_animation (now : Nat) (e : AnimEntry)
    (rest : List AnimEntry) (s : GState) : GState :=
  let s1 := apply_price_change e.market e.price_change s
  { s1 with price_animation_queue := rest,
            current_price_animation := some (CurrentAnim.mk e.market e.kind 0 now) }

/-- Python `GameplayPage.update_price_animation` (one frame): pop and start
the next animation when idle, skip ahead when the frame list for the current
type is empty, otherwise advance the frame index every
`price_animation_interval` ms and, on completion, start the next animation
or finish the turn. -/
def update_price_animation (now : Nat) (s : GState) : GState :=
  match s.current_price_animation with
  | none =>
    match s.price_animation_queue with
    | [] => s
    | e :: rest => start_next_price_animation now e rest s
  | some cur =>
    if s.frames_len cur.kind = 0 then
      match s.price_animation_queue with
      | [] => finish_price_animations_and_advance_day now s
      | e :: rest => start_next_price_animation now e rest s
    else
      if s.price_animation_interval ≤ now - cur.last_update then
        if s.frames_len cur.kind ≤ cur.frame_idx + 1 then
          match s.price_animation_queue with
          | [] => finish_price_animations_and_advance_day now s
          | e :: rest => start_next_price_animation now e rest s
        else
          { s with current_price_animation := some (CurrentAnim.mk cur.market cur.kind (cur.frame_idx + 1) now) }
      else s

/-- The End-Turn branch of `GameplayPage.handle_input`: rejected outright
while a price animation is in progress; otherwise compute the three market
outcomes, lock the played cards, and start the first price animation
(applying its price change).  The `else` arm mirrors the code's defensive
path for an empty queue (never taken: the queue always has 3 entries). -/
def end_turn_click (now : Nat) (rand_a rand_b rand_c : ℚ) (s : GState) :
    GState :=
  match s.current_price_animation with
  | some _ => s
  | none =>
    let queue := update_stock_prices s rand_a rand_b rand_c
    let s1 := lock_market_cards s
    match queue with
    | e :: rest => start_next_price_animation now e rest s1
    | [] =>
      let s2 := check_win_lose s1
      let s3 :=
        if s2.win_lose_state = none then
          if s2.Day < s2.LastTurn then
            check_win_lose { s2 with Day := s2.Day + 1 }
          else if s2.Goal ≤ s2.Money then
            { s2 with win_lose_state := some Outcome.win }
          else { s2 with win_lose_state := some Outcome.lose, Dobor := 1 }
        else s2
      draw_pending_cards now s3

/-- First empty slot of a market, Python the loop
`for s in range(3): if self.market_cards[market].get(s) is None: first_free = s; break`. -/
def first_free_slot (g : Nat → Nat → Option Nat) (market : Nat) : Option Nat :=
  [0, 1, 2].find? fun sl => (g market sl).isNone

/-- Last (rightmost) occupied slot of a market, Python
`max(s for s, cid in self.market_cards[market].items() if cid is not None)`. -/
def last_occupied_slot (g : Nat → Nat → Option Nat) (market : Nat) :
    Option Nat :=
  [2, 1, 0].find? fun sl => (g market sl).isSome

/-- The hand→market drop branch of `handle_input` (`MOUSEBUTTONUP`): the
target slot must be empty and must be the first free slot of the target
market, and the source hand slot must hold a card; on success the card
moves, its origin hand slot is recorded, the slot starts unlocked,
`turns_remaining` is initialised for ability cards, and one pending draw is
registered.  Any failed check is the Python `continue`, i.e. a no-op here. -/
def drop_hand_to_market (market slot i : Nat) (s : GState) : GState :=
  if (s.market_cards market slot).isSome then s
  else
    match first_free_slot s.market_cards market with
    | none => s
    | some ff =>
      if slot ≠ ff then s
      else if i < s.hand_cards.length then
        match s.hand_cards.getD i none with
        | none => s
        | some cid =>
          { s with
            market_cards := oset s.market_cards market slot (some cid),
            market_card_origins := oset s.market_card_origins market slot (some i),
            market_cards_locked := bset s.market_cards_locked market slot false,
            market_card_turns :=
              if (card_turns cid).isSome then
                oset s.market_card_turns market slot (card_turns cid)
              else s.market_card_turns,
            hand_cards := s.hand_cards.set i none,
            pending_draws := s.pending_draws + 1 }
      else s

/-- The market→market move as the user can actually perform it: the drag
start (`MOUSEBUTTONDOWN`) requires the source slot to hold an unlocked card
in the last occupied slot of its market, and the drop (`MOUSEBUTTONUP`)
requires a different market whose first free slot is the target; origin,
lock flag and `turns_remaining` move with the card. -/
def move_market_to_market (market slot src_market src_slot : Nat)
    (s : GState) : GState :=
  if (s.market_cards src_market src_slot).isSome ∧
      s.market_cards_locked src_market src_slot = false ∧
      last_occupied_slot s.market_cards src_market = some src_slot then
    if market = src_market ∧ slot = src_slot then s
    else if (s.market_cards market slot).isSome then s
    else if market = src_market then s
    else
      match first_free_slot s.market_cards market with
      | none => s
      | some ff =>
        if slot ≠ ff then s
        else
          match s.market_cards src_market src_slot with
          | none => s
          | some cid =>
            let origin := s.market_card_origins src_market src_slot
            let locked := s.market_cards_locked src_market src_slot
            let turns := s.market_card_turns src_market src_slot
            { s with
              market_cards :=
                oset (oset s.market_cards market slot (some cid))
                  src_market src_slot none,
              market_card_origins :=
                (fun g => if origin.isSome then oset g market slot origin else g)
                  (oset s.market_card_origins src_market src_slot none),
              market_cards_locked :=
                bset (bset s.market_cards_locked src_market src_slot false)
                  market slot locked,
              market_card_turns :=
                (fun g => if turns.isSome then oset g market slot turns else g)
                  (oset s.market_card_turns src_market src_slot none) }
  else s

/-- The market→hand return as the user can actually perform it: drag start
as in `move_market_to_market`, and the drop must hit the card's recorded
origin hand slot while that slot is empty; the lock flag and
`turns_remaining` are cleared and one pending draw is cancelled
(`if self.pending_draws > 0: self.pending_draws -= 1`, i.e. truncated). -/
def move_market_to_hand (slot src_market src_slot : Nat) (s : GState) :
    GState :=
  if (s.market_cards src_market src_slot).isSome ∧
      s.market_cards_locked src_market src_slot = false ∧
      last_occupied_slot s.market_cards src_market = some src_slot then
    match s.market_card_origins src_market src_slot with
    | none => s
    | some origin =>
      if slot = origin ∧ s.hand_cards.getD slot (some 0) = none then
        match s.market_cards src_market src_slot with
        | none => s
        | some cid =>
          { s with
            hand_cards := s.hand_cards.set slot (some cid),
            market_cards := oset s.market_cards src_market src_slot none,
            market_card_origins :=
              oset s.market_card_origins src_market src_slot none,
            market_cards_locked :=
              bset s.market_cards_locked src_market src_slot false,
            market_card_turns :=
              oset s.market_card_turns src_market src_slot none,
            pending_draws := s.pending_draws - 1 }
      else s
  else s

/-- The hand→hand reposition branch of `handle_input`: drop a dragged hand
card onto an empty hand slot. -/
def reposition_hand (slot i : Nat) (s : GState) : GState :=
  if s.hand_cards.getD slot (some 0) = none then
    match s.hand_cards.getD i none with
    | none => s
    | some cid =>
      { s with hand_cards := (s.hand_cards.set slot (some cid)).set i none }
  else s

/-- The market price read by the buy/sell arrows (`frame_idx` 0,1,2). -/
def price_of (s : GState) (market : Nat) : Int :=
  if market = 0 then s.Aprice
  else if market = 1 then s.BPrice
  else if market = 2 then s.CPrice
  else 0

/-- The held quantity of a market. -/
def quantity_of (s : GState) (market : Nat) : Int :=
  if market = 0 then s.Aquantity
  else if market = 1 then s.Bquantity
  else if market = 2 then s.Cquantity
  else 0

/-- Adds `q` shares to a market's held quantity. -/
def add_quantity (market : Nat) (q : Int) (s : GState) : GState :=
  if market = 0 then { s with Aquantity := s.Aquantity + q }
  else if market = 1 then { s with Bquantity := s.Bquantity + q }
  else if market = 2 then { s with Cquantity := s.Cquantity + q }
  else s

/-- The top arrow (`arrow_type == 0`): buy the maximum number of shares that
`Money` affords (Python floor division `self.Money // price`). -/
def buy_max (market : Nat) (s : GState) : GState :=
  let price := price_of s market
  if 0 < price then
    let shares := Int.fdiv s.Money price
    if 0 < shares then
      let s1 := check_win_lose { s with Money := s.Money - shares * price }
      add_quantity market shares s1
    else s
  else s

/-- The second arrow (`arrow_type == 1`): buy one share when affordable. -/
def buy_one (market : Nat) (s : GState) : GState :=
  let price := price_of s market
  if 0 < price ∧ price ≤ s.Money then
    add_quantity market 1 (check_win_lose { s with Money := s.Money - price })
  else s

/-- The third arrow (`arrow_type == 2`): sell one share when held. -/
def sell_one (market : Nat) (s : GState) : GState :=
  if 0 < quantity_of s market then
    check_win_lose
      (add_quantity market (-1) { s with Money := s.Money + price_of s market })
  else s

/-- The bottom arrow (`arrow_type == 3`): sell all shares of this market. -/
def sell_all (market : Nat) (s : GState) : GState :=
  check_win_lose
    (if market = 0 then
      { s with Money := s.Money + s.Aquantity * s.Aprice, Aquantity := 0 }
    else if market = 1 then
      { s with Money := s.Money + s.Bquantity * s.BPrice, Bquantity := 0 }
    else if market = 2 then
      { s with Money := s.Money + s.Cquantity * s.CPrice, Cquantity := 0 }
    else s)

/-- One observable transition of the single-threaded session: a user input
handled by `handle_input` or one frame of one of the `update_*` methods
driven by the run loop. -/
inductive Step : GState → GState → Prop where
  | drop_hand_to_market (market slot i : Nat) (s : GState) :
      Step s (drop_hand_to_market market slot i s)
  | move_market_to_market (market slot src_market src_slot : Nat) (s : GState) :
      Step s (move_market_to_market market slot src_market src_slot s)
  | move_market_to_hand (slot src_market src_slot : Nat) (s : GState) :
      Step s (move_market_to_hand slot src_market src_slot s)
  | reposition_hand (slot i : Nat) (s : GState) :
      Step s (reposition_hand slot i s)
  | buy_max (market : Nat) (s : GState) : Step s (buy_max market s)
  | buy_one (market : Nat) (s : GState) : Step s (buy_one market s)
  | sell_one (market : Nat) (s : GState) : Step s (sell_one market s)
  | sell_all (market : Nat) (s : GState) : Step s (sell_all market s)
  | end_turn_click (now : Nat) (ra rb rc : ℚ) (s : GState) :
      Step s (end_turn_click now ra rb rc s)
  | update_price_animation (now : Nat) (s : GState) :
      Step s (update_price_animation now s)
  | update_cards_11_14_processing (now : Nat) (s : GState) :
      Step s (update_cards_11_14_processing now s)
  | update_hand_compact_animation (now : Nat) (s : GState) :
      Step s (update_hand_compact_animation now s)
  | update_hand_draw_animation (now : Nat) (s : GState) :
      Step s (update_hand_draw_animation now s)

/-- States reachable from a freshly constructed session by observable
transitions. -/
inductive Reachable : GState → Prop where
  | init (goal last_turn : Int) (dobor : Nat) (shuffled_deck : List Nat)
      (interval : Nat) (flen : MoveKind → Nat) (bframe : Bool) :
      Reachable (init_state goal last_turn dobor shuffled_deck interval flen bframe)
  | step {s t : GState} : Reachable s → Step s t → Reachable t

/-- A price mutation of the spec's Market and Price Model contract: a
signed delta (ability ids 11-16 and the random evolution) or an integer
multiplier (ability ids 17-18). -/
inductive PriceOp where
  | delta (d : Int)
  | mult (f : Int)
deriving DecidableEq, Repr

/-- Runs one contract price mutation. -/
def run_price_op (p : Int) (op : PriceOp) : Int :=
  match op with
  | PriceOp.delta d => applyDelta p d
  | PriceOp.mult f => applyMultiplier p f

/-- A concrete session used to instantiate theorems: goal 10, default
last turn 8, Dobor 1, empty deck, 100 ms animation interval, 5 frames per
animation type, bottom frame present. -/
def testState : GState :=
  init_state 10 8 1 [] 100 (fun _ => 5) true

/-- A concrete session in the middle of a price animation. -/
def animState : GState :=
  { testState with
    current_price_animation := some (CurrentAnim.mk 0 MoveKind.rise 1 40),
    price_animation_queue :=
      [AnimEntry.mk 1 MoveKind.fall (-4), AnimEntry.mk 2 MoveKind.unchanged 0] }

/-- A concrete session holding one ability card (id 11, one turn left) in
market A slot 0, with the market-A price at 10. -/
def c1State : GState :=
  { testState with
    Aprice := 10,
    market_cards := fun m sl => if m = 0 ∧ sl = 0 then some 11 else none,
    market_card_turns := fun m sl => if m = 0 ∧ sl = 0 then some 1 else none }

/-- The concrete session of `c1State` once the ability card in market A
slot 0 has been put into processing (delay timer started at tick 100). -/
def c1ProcState : GState :=
  { c1State with current_card_processing := some (0, 0),
                 card_processing_start_time := 100 }

/-- The lexicographic scan order on `(market, slot)` pairs. -/
def slot_before (a b : Nat × Nat) : Prop :=
  a.1 < b.1 ∨ (a.1 = b.1 ∧ a.2 < b.2)

instance (a b : Nat × Nat) : Decidable (slot_before a b) := by
  unfold slot_before
  exact inferInstance

/-- The slot frontier invariant: no market slot `k+1` is occupied while
slot `k` of the same market is empty. -/
def NoGaps (s : GState) : Prop :=
  ∀ m k : Nat, (s.market_cards m (k + 1)).isSome = true →
    (s.market_cards m k).isSome = true

/-- The strengthened slot invariant carried through the reachability proof:
slots beyond index 2 are never occupied, and there are no gaps. -/
def SlotInv (s : GState) : Prop :=
  (∀ m k : Nat, 2 < k → s.market_cards m k = none) ∧ NoGaps s

/-- The hand-size invariant: the hand field is 7, the hand array has
exactly 7 slots, and any stored compaction target also has 7 slots. -/
def HandInv (s : GState) : Prop :=
  s.hand = 7 ∧ s.hand_cards.length = 7 ∧
    (∀ t, s.hand_compact_target_hand = some t → t.length = 7)

/-- A concrete session with a gappy hand and a two-card deck, used to
exercise the compaction-and-draw pipeline. -/
def c8State : GState :=
  { testState with
    hand_cards := [some 3, none, some 4, none, none, none, none],
    deck := [5, 0],
    Dobor := 2 }

end Bressoles

namespace Bressoles

/-- C10: a freshly created session has `money = 0`, `day = 1`, all three
market prices equal to 2, and held quantities of 2 shares in Market A and 0
in Markets B and C. -/
theorem C10_round_start_state (goal last_turn : Int) (dobor : Nat)
    (deck : List Nat) (interval : Nat) (flen : MoveKind → Nat)
    (bframe : Bool) :
    (init_state goal last_turn dobor deck interval flen bframe).Money = 0 ∧
    (init_state goal last_turn dobor deck interval flen bframe).Day = 1 ∧
    (init_state goal last_turn dobor deck interval flen bframe).Aprice = 2 ∧
    (init_state goal last_turn dobor deck interval flen bframe).BPrice = 2 ∧
    (init_state goal last_turn dobor deck interval flen bframe).CPrice = 2 ∧
    (init_state goal last_turn dobor deck interval flen bframe).Aquantity = 2 ∧
    (init_state goal last_turn dobor deck interval flen bframe).Bquantity = 0 ∧
    (init_state goal last_turn dobor deck interval flen bframe).Cquantity = 0 :=
  ⟨rfl, rfl, rfl, rfl, rfl, rfl, rfl, rfl⟩

/-- C2: outcome evaluation is a no-op when an outcome is set; on
`day = lastTurn` it yields WIN iff `money ≥ goal` and LOSE otherwise; on any
other day it yields WIN iff `money ≥ goal` and otherwise leaves the outcome
unset; and the outcome is never both WIN and LOSE. -/
theorem C2_outcome_evaluation :
    (∀ (s : GState) (o : Outcome), s.win_lose_state = some o →
      check_win_lose s = s) ∧
    (∀ s : GState, s.win_lose_state = none → s.Day = s.LastTurn →
      s.Goal ≤ s.Money →
      (check_win_lose s).win_lose_state = some Outcome.win) ∧
    (∀ s : GState, s.win_lose_state = none → s.Day = s.LastTurn →
      s.Money < s.Goal →
      (check_win_lose s).win_lose_state = some Outcome.lose) ∧
    (∀ s : GState, s.win_lose_state = none → s.Day ≠ s.LastTurn →
      s.Goal ≤ s.Money →
      (check_win_lose s).win_lose_state = some Outcome.win) ∧
    (∀ s : GState, s.win_lose_state = none → s.Day ≠ s.LastTurn →
      s.Money < s.Goal → (check_win_lose s).win_lose_state = none) ∧
    (∀ s : GState, ¬((check_win_lose s).win_lose_state = some Outcome.win ∧
      (check_win_lose s).win_lose_state = some Outcome.lose)) := by
  refine ⟨?_, ?_, ?_, ?_, ?_, ?_⟩
  · intro s o h
    simp [check_win_lose, h]
  · intro s h h1 h2
    simp [check_win_lose, h, h1, h2]
  · intro s h h1 h2
    simp [check_win_lose, h, h1, not_le.mpr h2]
  · intro s h h1 h2
    simp [check_win_lose, h, h1, h2]
  · intro s h h1 h2
    simp [check_win_lose, h, h1, not_le.mpr h2]
  · intro s h
    have h2 := h.1.symm.trans h.2
    simp at h2

/-- Witness for C2 at a concrete session on the last day with the goal met:
the outcome is WIN. -/
theorem C2_outcome_evaluation_witness :
    (check_win_lose { testState with Day := 8, Money := 12 }).win_lose_state =
      some Outcome.win :=
  C2_outcome_evaluation.2.1 _ rfl rfl (by decide)

/-- C6: an end-turn request made while a price animation is in progress is
ignored: the whole session state is unchanged (so nothing is computed,
locked, mutated or queued for later). -/
theorem C6_end_turn_ignored_while_animating (now : Nat) (ra rb rc : ℚ)
    (s : GState) (c : CurrentAnim)
    (h : s.current_price_animation = some c) :
    end_turn_click now ra rb rc s = s := by
  simp [end_turn_click, h]

/-- Witness for C6: a concrete mid-animation session, where the end-turn
click changes nothing. -/
theorem C6_end_turn_ignored_while_animating_witness :
    end_turn_click 77 (3 : ℚ) (14 : ℚ) (60 : ℚ) animState = animState :=
  C6_end_turn_ignored_while_animating 77 3 14 60 animState
    (CurrentAnim.mk 0 MoveKind.rise 1 40) rfl

/-- Every contract price mutation yields a price `≥ 2`. -/
theorem run_price_op_ge_two (p : Int) (op : PriceOp) :
    2 ≤ run_price_op p op := by
  cases op <;> simp [run_price_op, applyDelta, applyMultiplier]

/-- A fold of contract price mutations keeps a price `≥ 2`. -/
theorem foldl_price_ops_ge_two (ops : List PriceOp) (p : Int) (h : 2 ≤ p) :
    2 ≤ ops.foldl run_price_op p := by
  induction ops generalizing p with
  | nil => exact h
  | cons op rest ih => exact ih _ (run_price_op_ge_two p op)

/-- C3: `applyDelta` and `applyMultiplier` never leave a price below 2;
`_apply_price_change` implements `applyDelta` on the targeted market;
the ability processor's mutations implement `applyDelta` for ids 11-16 and
`applyMultiplier` for ids 17-18; every non-empty sequence of contract
mutations ends at a price `≥ 2`; and a price of 2 stays clamped at 2 under a
repeated fall of `-stepB = -4`. -/
theorem C3_price_floor :
    (∀ p d : Int, 2 ≤ applyDelta p d ∧ 2 ≤ applyMultiplier p d) ∧
    (∀ (s : GState) (d : Int),
      (apply_price_change 0 d s).Aprice = applyDelta s.Aprice d ∧
      (apply_price_change 1 d s).BPrice = applyDelta s.BPrice d ∧
      (apply_price_change 2 d s).CPrice = applyDelta s.CPrice d) ∧
    (∀ (s : GState) (cid : Nat),
      cid = 11 ∨ cid = 12 ∨ cid = 13 ∨ cid = 14 ∨ cid = 15 ∨ cid = 16 →
      (apply_card_action 0 cid s).Aprice = applyDelta s.Aprice (card_actions cid) ∧
      (apply_card_action 1 cid s).BPrice = applyDelta s.BPrice (card_actions cid) ∧
      (apply_card_action 2 cid s).CPrice = applyDelta s.CPrice (card_actions cid)) ∧
    (∀ (s : GState) (cid : Nat), cid = 17 ∨ cid = 18 →
      (apply_card_action 0 cid s).Aprice = applyMultiplier s.Aprice (card_actions cid) ∧
      (apply_card_action 1 cid s).BPrice = applyMultiplier s.BPrice (card_actions cid) ∧
      (apply_card_action 2 cid s).CPrice = applyMultiplier s.CPrice (card_actions cid)) ∧
    (∀ (start : Int) (ops : List PriceOp), ops ≠ [] →
      2 ≤ ops.foldl run_price_op start) ∧
    applyDelta 2 (-4) = 2 := by
  refine ⟨?_, ?_, ?_, ?_, ?_, by decide⟩
  · intro p d
    constructor <;> simp [applyDelta, applyMultiplier]
  · intro s d
    refine ⟨?_, ?_, ?_⟩ <;> simp [apply_price_change, applyDelta]
  · intro s cid h
    rcases h with h | h | h | h | h | h <;> subst h <;>
      refine ⟨?_, ?_, ?_⟩ <;> simp [apply_card_action, card_actions, applyDelta]
  · intro s cid h
    rcases h with h | h <;> subst h <;>
      refine ⟨?_, ?_, ?_⟩ <;>
        simp [apply_card_action, card_actions, applyMultiplier]
  · intro start ops h
    match ops with
    | op :: rest => exact foldl_price_ops_ge_two rest _ (run_price_op_ge_two start op)

/-- Witness for C3: the ability-card clauses at a concrete session and ids
13 and 17, and the fold clause on a concrete fall-fall sequence from price
6: the price is clamped at 2. -/
theorem C3_price_floor_witness :
    (apply_card_action 1 13 testState).BPrice =
      applyDelta testState.BPrice (card_actions 13) ∧
    (apply_card_action 2 17 testState).CPrice =
      applyMultiplier testState.CPrice (card_actions 17) ∧
    2 ≤ [PriceOp.delta (-4), PriceOp.delta (-4)].foldl run_price_op 6 :=
  ⟨(C3_price_floor.2.2.1 testState 13 (by decide)).2.1,
   (C3_price_floor.2.2.2.1 testState 17 (Or.inl rfl)).2.2,
   C3_price_floor.2.2.2.2.1 6 _ (by decide)⟩

/-- C4: for one end turn the three markets are classified independently
from one draw each; Market A is unchanged iff `r ≤ 15` and otherwise rises
(never falls); Market B falls iff `r ≤ 10`, is unchanged iff `10 < r ≤ 30`,
otherwise rises; Market C falls iff `r ≤ 30`, is unchanged iff
`30 < r ≤ 50`, otherwise rises; deltas are `+step` on rise, `-step` on
fall, `0` on unchanged, with steps A=2, B=4, C=6 from construction. -/
theorem C4_price_evolution_classification :
    (∀ (s : GState) (ra rb rc : ℚ),
      ((update_stock_prices s ra rb rc).get? 0 =
          some (AnimEntry.mk 0 MoveKind.unchanged 0) ↔ ra ≤ 15) ∧
      ((update_stock_prices s ra rb rc).get? 0 =
          some (AnimEntry.mk 0 MoveKind.rise s.StepA) ↔ 15 < ra) ∧
      ((update_stock_prices s ra rb rc).get? 0 =
          some (AnimEntry.mk 0 MoveKind.unchanged 0) ∨
        (update_stock_prices s ra rb rc).get? 0 =
          some (AnimEntry.mk 0 MoveKind.rise s.StepA)) ∧
      ((update_stock_prices s ra rb rc).get? 1 =
          some (AnimEntry.mk 1 MoveKind.fall (-s.StepB)) ↔ rb ≤ 10) ∧
      ((update_stock_prices s ra rb rc).get? 1 =
          some (AnimEntry.mk 1 MoveKind.unchanged 0) ↔ 10 < rb ∧ rb ≤ 30) ∧
      ((update_stock_prices s ra rb rc).get? 1 =
          some (AnimEntry.mk 1 MoveKind.rise s.StepB) ↔ 30 < rb) ∧
      ((update_stock_prices s ra rb rc).get? 2 =
          some (AnimEntry.mk 2 MoveKind.fall (-s.StepC)) ↔ rc ≤ 30) ∧
      ((update_stock_prices s ra rb rc).get? 2 =
          some (AnimEntry.mk 2 MoveKind.unchanged 0) ↔ 30 < rc ∧ rc ≤ 50) ∧
      ((update_stock_prices s ra rb rc).get? 2 =
          some (AnimEntry.mk 2 MoveKind.rise s.StepC) ↔ 50 < rc) ∧
      (update_stock_prices s ra rb rc).length = 3) ∧
    (∀ (s : GState) (ra rb rc rb2 rc2 : ℚ),
      (update_stock_prices s ra rb2 rc2).get? 0 =
        (update_stock_prices s ra rb rc).get? 0) ∧
    (∀ (s : GState) (ra rb rc ra2 rc2 : ℚ),
      (update_stock_prices s ra2 rb rc2).get? 1 =
        (update_stock_prices s ra rb rc).get? 1) ∧
    (∀ (s : GState) (ra rb rc ra2 rb2 : ℚ),
      (update_stock_prices s ra2 rb2 rc).get? 2 =
        (update_stock_prices s ra rb rc).get? 2) ∧
    (∀ (goal last_turn : Int) (dobor : Nat) (deck : List Nat)
      (interval : Nat) (flen : MoveKind → Nat) (bframe : Bool),
      (init_state goal last_turn dobor deck interval flen bframe).StepA = 2 ∧
      (init_state goal last_turn dobor deck interval flen bframe).StepB = 4 ∧
      (init_state goal last_turn dobor deck interval flen bframe).StepC = 6) := by
  have hget0 : ∀ (s : GState) (ra rb rc : ℚ),
      (update_stock_prices s ra rb rc).get? 0 =
        some (if ra ≤ 15 then AnimEntry.mk 0 MoveKind.unchanged 0
          else AnimEntry.mk 0 MoveKind.rise s.StepA) := fun _ _ _ _ => rfl
  have hget1 : ∀ (s : GState) (ra rb rc : ℚ),
      (update_stock_prices s ra rb rc).get? 1 =
        some (if rb ≤ 10 then AnimEntry.mk 1 MoveKind.fall (-s.StepB)
          else if rb ≤ 30 then AnimEntry.mk 1 MoveKind.unchanged 0
          else AnimEntry.mk 1 MoveKind.rise s.StepB) := fun _ _ _ _ => rfl
  have hget2 : ∀ (s : GState) (ra rb rc : ℚ),
      (update_stock_prices s ra rb rc).get? 2 =
        some (if rc ≤ 30 then AnimEntry.mk 2 MoveKind.fall (-s.StepC)
          else if rc ≤ 50 then AnimEntry.mk 2 MoveKind.unchanged 0
          else AnimEntry.mk 2 MoveKind.rise s.StepC) := fun _ _ _ _ => rfl
  refine ⟨?_, ?_, ?_, ?_, fun _ _ _ _ _ _ _ => ⟨rfl, rfl, rfl⟩⟩
  · intro s ra rb rc
    refine ⟨?_, ?_, ?_, ?_, ?_, ?_, ?_, ?_, ?_, rfl⟩
    · rcases le_or_lt ra 15 with h | h
      · rw [hget0]; simp [if_pos h, h]
      · rw [hget0]; simp [if_neg (not_le.mpr h), not_le.mpr h]
    · rcases le_or_lt ra 15 with h | h
      · rw [hget0]; simp [if_pos h, not_lt.mpr h]
      · rw [hget0]; simp [if_neg (not_le.mpr h), h]
    · rcases le_or_lt ra 15 with h | h
      · exact Or.inl (by rw [hget0]; simp [if_pos h])
      · exact Or.inr (by rw [hget0]; simp [if_neg (not_le.mpr h)])
    · rcases le_or_lt rb 10 with h | h
      · rw [hget1]; simp [if_pos h, h]
      · rcases le_or_lt rb 30 with h2 | h2
        · rw [hget1]; simp [if_neg (not_le.mpr h), if_pos h2, not_le.mpr h]
        · rw [hget1]; simp [if_neg (not_le.mpr h), if_neg (not_le.mpr h2), not_le.mpr h]
    · rcases le_or_lt rb 10 with h | h
      · rw [hget1]; simp [if_pos h]; intro h2; linarith
      · rcases le_or_lt rb 30 with h2 | h2
        · rw [hget1]; simp [if_neg (not_le.mpr h), if_pos h2, h, h2]
        · rw [hget1]; simp [if_neg (not_le.mpr h), if_neg (not_le.mpr h2), not_le.mpr h2]
    · rcases le_or_lt rb 10 with h | h
      · rw [hget1]; simp [if_pos h, not_lt.mpr (by linarith : rb ≤ 30)]
      · rcases le_or_lt rb 30 with h2 | h2
        · rw [hget1]; simp [if_neg (not_le.mpr h), if_pos h2, not_lt.mpr h2]
        · rw [hget1]; simp [if_neg (not_le.mpr h), if_neg (not_le.mpr h2), h2]
    · rcases le_or_lt rc 30 with h | h
      · rw [hget2]; simp [if_pos h, h]
      · rcases le_or_lt rc 50 with h2 | h2
        · rw [hget2]; simp [if_neg (not_le.mpr h), if_pos h2, not_le.mpr h]
        · rw [hget2]; simp [if_neg (not_le.mpr h), if_neg (not_le.mpr h2), not_le.mpr h]
    · rcases le_or_lt rc 30 with h | h
      · rw [hget2]; simp [if_pos h]; intro h2; linarith
      · rcases le_or_lt rc 50 with h2 | h2
        · rw [hget2]; simp [if_neg (not_le.mpr h), if_pos h2, h, h2]
        · rw [hget2]; simp [if_neg (not_le.mpr h), if_neg (not_le.mpr h2), not_le.mpr h2]
    · rcases le_or_lt rc 30 with h | h
      · rw [hget2]; simp [if_pos h, not_lt.mpr (by linarith : rc ≤ 50)]
      · rcases le_or_lt rc 50 with h2 | h2
        · rw [hget2]; simp [if_neg (not_le.mpr h), if_pos h2, not_lt.mpr h2]
        · rw [hget2]; simp [if_neg (not_le.mpr h), if_neg (not_le.mpr h2), h2]
  · intro s ra rb rc rb2 rc2
    rw [hget0, hget0]
  · intro s ra rb rc ra2 rc2
    rw [hget1, hget1]
  · intro s ra rb rc ra2 rb2
    rw [hget2, hget2]

/-- C5: computing the three outcomes mutates no price
(`update_stock_prices` is a pure function of the state); the queue lists
markets in order A,B,C; on end turn the first animation starts and only its
own price mutation is applied; each later animation, on completing, pops the
front of the queue and applies exactly that entry's mutation as the next
animation starts; while an animation is mid-flight or waiting, no price
changes. -/
theorem C5_price_mutation_at_animation_start :
    (∀ (s : GState) (ra rb rc : ℚ),
      (update_stock_prices s ra rb rc).map AnimEntry.market = [0, 1, 2]) ∧
    (∀ (now : Nat) (ra rb rc : ℚ) (s : GState),
      s.current_price_animation = none →
      ∃ e0 rest, update_stock_prices s ra rb rc = e0 :: rest ∧
        e0.market = 0 ∧
        end_turn_click now ra rb rc s =
          start_next_price_animation now e0 rest (lock_market_cards s)) ∧
    (∀ s : GState, (lock_market_cards s).Aprice = s.Aprice ∧
      (lock_market_cards s).BPrice = s.BPrice ∧
      (lock_market_cards s).CPrice = s.CPrice) ∧
    (∀ (now : Nat) (e : AnimEntry) (rest : List AnimEntry) (s : GState),
      (start_next_price_animation now e rest s).Aprice =
        (apply_price_change e.market e.price_change s).Aprice ∧
      (start_next_price_animation now e rest s).BPrice =
        (apply_price_change e.market e.price_change s).BPrice ∧
      (start_next_price_animation now e rest s).CPrice =
        (apply_price_change e.market e.price_change s).CPrice ∧
      (start_next_price_animation now e rest s).price_animation_queue = rest ∧
      (start_next_price_animation now e rest s).current_price_animation =
        some (CurrentAnim.mk e.market e.kind 0 now)) ∧
    (∀ (now : Nat) (s : GState) (cur : CurrentAnim) (e : AnimEntry)
      (rest : List AnimEntry),
      s.current_price_animation = some cur →
      s.price_animation_queue = e :: rest →
      0 < s.frames_len cur.kind →
      s.price_animation_interval ≤ now - cur.last_update →
      s.frames_len cur.kind ≤ cur.frame_idx + 1 →
      update_price_animation now s = start_next_price_animation now e rest s) ∧
    (∀ (now : Nat) (s : GState) (cur : CurrentAnim),
      s.current_price_animation = some cur →
      0 < s.frames_len cur.kind →
      s.price_animation_interval ≤ now - cur.last_update →
      cur.frame_idx + 1 < s.frames_len cur.kind →
      (update_price_animation now s).Aprice = s.Aprice ∧
      (update_price_animation now s).BPrice = s.BPrice ∧
      (update_price_animation now s).CPrice = s.CPrice) ∧
    (∀ (now : Nat) (s : GState) (cur : CurrentAnim),
      s.current_price_animation = some cur →
      0 < s.frames_len cur.kind →
      now - cur.last_update < s.price_animation_interval →
      update_price_animation now s = s) := by
  refine ⟨?_, ?_, fun s => ⟨rfl, rfl, rfl⟩,
    fun now e rest s => ⟨rfl, rfl, rfl, rfl, rfl⟩, ?_, ?_, ?_⟩
  · intro s ra rb rc
    simp [update_stock_prices, apply_ite AnimEntry.market]
  · intro now ra rb rc s h
    refine ⟨_, _, rfl, ?_, ?_⟩
    · rcases le_or_lt ra 15 with h1 | h1
      · simp [update_stock_prices, h1]
      · simp [update_stock_prices, not_le.mpr h1]
    · unfold end_turn_click
      rw [h]
      rfl
  · intro now s cur e rest h1 h2 h3 h4 h5
    simp [update_price_animation, h1, h2, h3.ne', h4, h5]
  · intro now s cur h1 h3 h4 h5
    simp [update_price_animation, h1, h3.ne', h4, not_le.mpr h5]
  · intro now s cur h1 h3 h4
    simp [update_price_animation, h1, h3.ne', not_le.mpr h4]

/-- Witness for C5: at a concrete mid-animation session whose current
animation has reached its last frame, the update pops the front queue entry
(market B) and hands it to `start_next_price_animation`. -/
theorem C5_price_mutation_at_animation_start_witness :
    update_price_animation 200
        { animState with
          current_price_animation := some (CurrentAnim.mk 0 MoveKind.rise 4 40) } =
      start_next_price_animation 200 (AnimEntry.mk 1 MoveKind.fall (-4))
        [AnimEntry.mk 2 MoveKind.unchanged 0]
        { animState with
          current_price_animation := some (CurrentAnim.mk 0 MoveKind.rise 4 40) } :=
  C5_price_mutation_at_animation_start.2.2.2.2.1 200 _
    (CurrentAnim.mk 0 MoveKind.rise 4 40) (AnimEntry.mk 1 MoveKind.fall (-4))
    [AnimEntry.mk 2 MoveKind.unchanged 0] rfl rfl (by decide) (by decide)
    (by decide)

/-- `_draw_pending_cards` only touches the hand, the deck, the pending-draw
counter and the compaction/draw-in animation state. -/
theorem draw_pending_cards_untouched (now : Nat) (s : GState) :
    (draw_pending_cards now s).Aprice = s.Aprice ∧
    (draw_pending_cards now s).BPrice = s.BPrice ∧
    (draw_pending_cards now s).CPrice = s.CPrice ∧
    (draw_pending_cards now s).Day = s.Day ∧
    (draw_pending_cards now s).LastTurn = s.LastTurn ∧
    (draw_pending_cards now s).Money = s.Money ∧
    (draw_pending_cards now s).win_lose_state = s.win_lose_state ∧
    (draw_pending_cards now s).market_cards = s.market_cards ∧
    (draw_pending_cards now s).market_card_turns = s.market_card_turns ∧
    (draw_pending_cards now s).cards_11_14_queue = s.cards_11_14_queue ∧
    (draw_pending_cards now s).current_card_processing =
      s.current_card_processing ∧
    (draw_pending_cards now s).hand = s.hand := by
  unfold draw_pending_cards
  simp only []
  split_ifs <;>
    exact ⟨rfl, rfl, rfl, rfl, rfl, rfl, rfl, rfl, rfl, rfl, rfl, rfl⟩

/-- `_check_win_lose` only touches the outcome and (on a loss) `Dobor`. -/
theorem check_win_lose_untouched (s : GState) :
    (check_win_lose s).Aprice = s.Aprice ∧
    (check_win_lose s).BPrice = s.BPrice ∧
    (check_win_lose s).CPrice = s.CPrice ∧
    (check_win_lose s).Day = s.Day ∧
    (check_win_lose s).LastTurn = s.LastTurn ∧
    (check_win_lose s).Money = s.Money ∧
    (check_win_lose s).Goal = s.Goal ∧
    (check_win_lose s).market_cards = s.market_cards ∧
    (check_win_lose s).market_card_turns = s.market_card_turns ∧
    (check_win_lose s).cards_11_14_queue = s.cards_11_14_queue ∧
    (check_win_lose s).current_card_processing = s.current_card_processing ∧
    (check_win_lose s).hand = s.hand ∧
    (check_win_lose s).hand_cards = s.hand_cards ∧
    (check_win_lose s).deck = s.deck ∧
    (check_win_lose s).bottom_frame = s.bottom_frame := by
  unfold check_win_lose
  cases s.win_lose_state
  · split_ifs <;>
      exact ⟨rfl, rfl, rfl, rfl, rfl, rfl, rfl, rfl, rfl, rfl, rfl, rfl, rfl,
        rfl, rfl⟩
  · exact ⟨rfl, rfl, rfl, rfl, rfl, rfl, rfl, rfl, rfl, rfl, rfl, rfl, rfl,
      rfl, rfl⟩

/-- `_process_cards_11_14` only touches the ability queue, the card in
processing and its start time. -/
theorem process_cards_11_14_untouched (now : Nat) (s : GState) :
    (process_cards_11_14 now s).Aprice = s.Aprice ∧
    (process_cards_11_14 now s).BPrice = s.BPrice ∧
    (process_cards_11_14 now s).CPrice = s.CPrice ∧
    (process_cards_11_14 now s).Day = s.Day ∧
    (process_cards_11_14 now s).LastTurn = s.LastTurn ∧
    (process_cards_11_14 now s).Money = s.Money ∧
    (process_cards_11_14 now s).Goal = s.Goal ∧
    (process_cards_11_14 now s).win_lose_state = s.win_lose_state ∧
    (process_cards_11_14 now s).market_cards = s.market_cards ∧
    (process_cards_11_14 now s).market_card_turns = s.market_card_turns ∧
    (process_cards_11_14 now s).hand = s.hand ∧
    (process_cards_11_14 now s).hand_cards = s.hand_cards ∧
    (process_cards_11_14 now s).deck = s.deck ∧
    (process_cards_11_14 now s).bottom_frame = s.bottom_frame := by
  unfold process_cards_11_14
  cases ability_queue s <;>
    exact ⟨rfl, rfl, rfl, rfl, rfl, rfl, rfl, rfl, rfl, rfl, rfl, rfl, rfl,
      rfl⟩

/-- Projection of `draw_pending_cards_untouched`. -/
@[simp] theorem draw_pending_cards_Aprice (now : Nat) (s : GState) :
    (draw_pending_cards now s).Aprice = s.Aprice :=
  (draw_pending_cards_untouched now s).1

/-- Projection of `draw_pending_cards_untouched`. -/
@[simp] theorem draw_pending_cards_BPrice (now : Nat) (s : GState) :
    (draw_pending_cards now s).BPrice = s.BPrice :=
  (draw_pending_cards_untouched now s).2.1

/-- Projection of `draw_pending_cards_untouched`. -/
@[simp] theorem draw_pending_cards_CPrice (now : Nat) (s : GState) :
    (draw_pending_cards now s).CPrice = s.CPrice :=
  (draw_pending_cards_untouched now s).2.2.1

/-- Projection of `draw_pending_cards_untouched`. -/
@[simp] theorem draw_pending_cards_Day (now : Nat) (s : GState) :
    (draw_pending_cards now s).Day = s.Day :=
  (draw_pending_cards_untouched now s).2.2.2.1

/-- Projection of `draw_pending_cards_untouched`. -/
@[simp] theorem draw_pending_cards_LastTurn (now : Nat) (s : GState) :
    (draw_pending_cards now s).LastTurn = s.LastTurn :=
  (draw_pending_cards_untouched now s).2.2.2.2.1

/-- Projection of `draw_pending_cards_untouched`. -/
@[simp] theorem draw_pending_cards_Money (now : Nat) (s : GState) :
    (draw_pending_cards now s).Money = s.Money :=
  (draw_pending_cards_untouched now s).2.2.2.2.2.1

/-- Projection of `draw_pending_cards_untouched`. -/
@[simp] theorem draw_pending_cards_win_lose_state (now : Nat) (s : GState) :
    (draw_pending_cards now s).win_lose_state = s.win_lose_state :=
  (draw_pending_cards_untouched now s).2.2.2.2.2.2.1

/-- Projection of `draw_pending_cards_untouched`. -/
@[simp] theorem draw_pending_cards_market_cards (now : Nat) (s : GState) :
    (draw_pending_cards now s).market_cards = s.market_cards :=
  (draw_pending_cards_untouched now s).2.2.2.2.2.2.2.1

/-- Projection of `draw_pending_cards_untouched`. -/
@[simp] theorem draw_pending_cards_market_card_turns (now : Nat) (s : GState) :
    (draw_pending_cards now s).market_card_turns = s.market_card_turns :=
  (draw_pending_cards_untouched now s).2.2.2.2.2.2.2.2.1

/-- Projection of `draw_pending_cards_untouched`. -/
@[simp] theorem draw_pending_cards_cards_11_14_queue (now : Nat) (s : GState) :
    (draw_pending_cards now s).cards_11_14_queue = s.cards_11_14_queue :=
  (draw_pending_cards_untouched now s).2.2.2.2.2.2.2.2.2.1

/-- Projection of `draw_pending_cards_untouched`. -/
@[simp] theorem draw_pending_cards_current_card_processing (now : Nat) (s : GState) :
    (draw_pending_cards now s).current_card_processing = s.current_card_processing :=
  (draw_pending_cards_untouched now s).2.2.2.2.2.2.2.2.2.2.1

/-- Projection of `draw_pending_cards_untouched`. -/
@[simp] theorem draw_pending_cards_hand (now : Nat) (s : GState) :
    (draw_pending_cards now s).hand = s.hand :=
  (draw_pending_cards_untouched now s).2.2.2.2.2.2.2.2.2.2.2

/-- Projection of `check_win_lose_untouched`. -/
@[simp] theorem check_win_lose_Aprice (s : GState) :
    (check_win_lose s).Aprice = s.Aprice :=
  (check_win_lose_untouched s).1

/-- Projection of `check_win_lose_untouched`. -/
@[simp] theorem check_win_lose_BPrice (s : GState) :
    (check_win_lose s).BPrice = s.BPrice :=
  (check_win_lose_untouched s).2.1

/-- Projection of `check_win_lose_untouched`. -/
@[simp] theorem check_win_lose_CPrice (s : GState) :
    (check_win_lose s).CPrice = s.CPrice :=
  (check_win_lose_untouched s).2.2.1

/-- Projection of `check_win_lose_untouched`. -/
@[simp] theorem check_win_lose_Day (s : GState) :
    (check_win_lose s).Day = s.Day :=
  (check_win_lose_untouched s).2.2.2.1

/-- Projection of `check_win_lose_untouched`. -/
@[simp] theorem check_win_lose_LastTurn (s : GState) :
    (check_win_lose s).LastTurn = s.LastTurn :=
  (check_win_lose_untouched s).2.2.2.2.1

/-- Projection of `check_win_lose_untouched`. -/
@[simp] theorem check_win_lose_Money (s : GState) :
    (check_win_lose s).Money = s.Money :=
  (check_win_lose_untouched s).2.2.2.2.2.1

/-- Projection of `check_win_lose_untouched`. -/
@[simp] theorem check_win_lose_Goal (s : GState) :
    (check_win_lose s).Goal = s.Goal :=
  (check_win_lose_untouched s).2.2.2.2.2.2.1

/-- Projection of `check_win_lose_untouched`. -/
@[simp] theorem check_win_lose_market_cards (s : GState) :
    (check_win_lose s).market_cards = s.market_cards :=
  (check_win_lose_untouched s).2.2.2.2.2.2.2.1

/-- Projection of `check_win_lose_untouched`. -/
@[simp] theorem check_win_lose_market_card_turns (s : GState) :
    (check_win_lose s).market_card_turns = s.market_card_turns :=
  (check_win_lose_untouched s).2.2.2.2.2.2.2.2.1

/-- Projection of `check_win_lose_untouched`. -/
@[simp] theorem check_win_lose_cards_11_14_queue (s : GState) :
    (check_win_lose s).cards_11_14_queue = s.cards_11_14_queue :=
  (check_win_lose_untouched s).2.2.2.2.2.2.2.2.2.1

/-- Projection of `check_win_lose_untouched`. -/
@[simp] theorem check_win_lose_current_card_processing (s : GState) :
    (check_win_lose s).current_card_processing = s.current_card_processing :=
  (check_win_lose_untouched s).2.2.2.2.2.2.2.2.2.2.1

/-- Projection of `check_win_lose_untouched`. -/
@[simp] theorem check_win_lose_hand (s : GState) :
    (check_win_lose s).hand = s.hand :=
  (check_win_lose_untouched s).2.2.2.2.2.2.2.2.2.2.2.1

/-- Projection of `check_win_lose_untouched`. -/
@[simp] theorem check_win_lose_hand_cards (s : GState) :
    (check_win_lose s).hand_cards = s.hand_cards :=
  (check_win_lose_untouched s).2.2.2.2.2.2.2.2.2.2.2.2.1

/-- Projection of `check_win_lose_untouched`. -/
@[simp] theorem check_win_lose_deck (s : GState) :
    (check_win_lose s).deck = s.deck :=
  (check_win_lose_untouched s).2.2.2.2.2.2.2.2.2.2.2.2.2.1

/-- Projection of `check_win_lose_untouched`. -/
@[simp] theorem check_win_lose_bottom_frame (s : GState) :
    (check_win_lose s).bottom_frame = s.bottom_frame :=
  (check_win_lose_untouched s).2.2.2.2.2.2.2.2.2.2.2.2.2.2

/-- Projection of `process_cards_11_14_untouched`. -/
@[simp] theorem process_cards_11_14_Aprice (now : Nat) (s : GState) :
    (process_cards_11_14 now s).Aprice = s.Aprice :=
  (process_cards_11_14_untouched now s).1

/-- Projection of `process_cards_11_14_untouched`. -/
@[simp] theorem process_cards_11_14_BPrice (now : Nat) (s : GState) :
    (process_cards_11_14 now s).BPrice = s.BPrice :=
  (process_cards_11_14_untouched now s).2.1

/-- Projection of `process_cards_11_14_untouched`. -/
@[simp] theorem process_cards_11_14_CPrice (now : Nat) (s : GState) :
    (process_cards_11_14 now s).CPrice = s.CPrice :=
  (process_cards_11_14_untouched now s).2.2.1

/-- Projection of `process_cards_11_14_untouched`. -/
@[simp] theorem process_cards_11_14_Day (now : Nat) (s : GState) :
    (process_cards_11_14 now s).Day = s.Day :=
  (process_cards_11_14_untouched now s).2.2.2.1

/-- Projection of `process_cards_11_14_untouched`. -/
@[simp] theorem process_cards_11_14_LastTurn (now : Nat) (s : GState) :
    (process_cards_11_14 now s).LastTurn = s.LastTurn :=
  (process_cards_11_14_untouched now s).2.2.2.2.1

/-- Projection of `process_cards_11_14_untouched`. -/
@[simp] theorem process_cards_11_14_Money (now : Nat) (s : GState) :
    (process_cards_11_14 now s).Money = s.Money :=
  (process_cards_11_14_untouched now s).2.2.2.2.2.1

/-- Projection of `process_cards_11_14_untouched`. -/
@[simp] theorem process_cards_11_14_Goal (now : Nat) (s : GState) :
    (process_cards_11_14 now s).Goal = s.Goal :=
  (process_cards_11_14_untouched now s).2.2.2.2.2.2.1

/-- Projection of `process_cards_11_14_untouched`. -/
@[simp] theorem process_cards_11_14_win_lose_state (now : Nat) (s : GState) :
    (process_cards_11_14 now s).win_lose_state = s.win_lose_state :=
  (process_cards_11_14_untouched now s).2.2.2.2.2.2.2.1

/-- Projection of `process_cards_11_14_untouched`. -/
@[simp] theorem process_cards_11_14_market_cards (now : Nat) (s : GState) :
    (process_cards_11_14 now s).market_cards = s.market_cards :=
  (process_cards_11_14_untouched now s).2.2.2.2.2.2.2.2.1

/-- Projection of `process_cards_11_14_untouched`. -/
@[simp] theorem process_cards_11_14_market_card_turns (now : Nat) (s : GState) :
    (process_cards_11_14 now s).market_card_turns = s.market_card_turns :=
  (process_cards_11_14_untouched now s).2.2.2.2.2.2.2.2.2.1

/-- Projection of `process_cards_11_14_untouched`. -/
@[simp] theorem process_cards_11_14_hand (now : Nat) (s : GState) :
    (process_cards_11_14 now s).hand = s.hand :=
  (process_cards_11_14_untouched now s).2.2.2.2.2.2.2.2.2.2.1

/-- Projection of `process_cards_11_14_untouched`. -/
@[simp] theorem process_cards_11_14_hand_cards (now : Nat) (s : GState) :
    (process_cards_11_14 now s).hand_cards = s.hand_cards :=
  (process_cards_11_14_untouched now s).2.2.2.2.2.2.2.2.2.2.2.1

/-- Projection of `process_cards_11_14_untouched`. -/
@[simp] theorem process_cards_11_14_deck (now : Nat) (s : GState) :
    (process_cards_11_14 now s).deck = s.deck :=
  (process_cards_11_14_untouched now s).2.2.2.2.2.2.2.2.2.2.2.2.1

/-- Projection of `process_cards_11_14_untouched`. -/
@[simp] theorem process_cards_11_14_bottom_frame (now : Nat) (s : GState) :
    (process_cards_11_14 now s).bottom_frame = s.bottom_frame :=
  (process_cards_11_14_untouched now s).2.2.2.2.2.2.2.2.2.2.2.2.2

/-- `apply_card_action` only touches the three prices. -/
theorem apply_card_action_untouched (market cid : Nat) (s : GState) :
    (apply_card_action market cid s).market_cards = s.market_cards ∧
    (apply_card_action market cid s).market_card_turns = s.market_card_turns ∧
    (apply_card_action market cid s).cards_11_14_queue = s.cards_11_14_queue ∧
    (apply_card_action market cid s).current_card_processing =
      s.current_card_processing ∧
    (apply_card_action market cid s).card_jump_animations =
      s.card_jump_animations := by
  unfold apply_card_action
  simp only []
  split_ifs <;> exact ⟨rfl, rfl, rfl, rfl, rfl⟩

/-- Projection of `apply_card_action_untouched`. -/
@[simp] theorem apply_card_action_market_card_turns (market cid : Nat)
    (s : GState) :
    (apply_card_action market cid s).market_card_turns =
      s.market_card_turns :=
  (apply_card_action_untouched market cid s).2.1

/-- Projection of `apply_card_action_untouched`. -/
@[simp] theorem apply_card_action_cards_11_14_queue (market cid : Nat)
    (s : GState) :
    (apply_card_action market cid s).cards_11_14_queue =
      s.cards_11_14_queue :=
  (apply_card_action_untouched market cid s).2.2.1

/-- `_process_cards_11_14` pops the head of the freshly built queue into
`current_card_processing` and keeps the tail. -/
theorem process_cards_11_14_spec (now : Nat) (s : GState) :
    (ability_queue s = [] →
      (process_cards_11_14 now s).cards_11_14_queue = [] ∧
      (process_cards_11_14 now s).current_card_processing =
        s.current_card_processing) ∧
    (∀ a t, ability_queue s = a :: t →
      (process_cards_11_14 now s).cards_11_14_queue = t ∧
      (process_cards_11_14 now s).current_card_processing = some a) := by
  constructor
  · intro h
    unfold process_cards_11_14
    rw [h]
    exact ⟨rfl, rfl⟩
  · intro a t h
    unfold process_cards_11_14
    rw [h]
    exact ⟨rfl, rfl⟩

/-- The ability queue and the card in processing that
`_finish_price_animations_and_advance_day` leaves behind are exactly those
set up by `_process_cards_11_14` at its start; the outcome evaluation, the
day advance and the hand compaction do not touch them. -/
theorem finish_queue_current (now : Nat) (s : GState) :
    (finish_price_animations_and_advance_day now s).cards_11_14_queue =
      (process_cards_11_14 now
        { s with current_price_animation := none }).cards_11_14_queue ∧
    (finish_price_animations_and_advance_day now s).current_card_processing =
      (process_cards_11_14 now
        { s with current_price_animation := none }).current_card_processing := by
  unfold finish_price_animations_and_advance_day
  simp only []
  constructor <;> split_ifs <;> simp

/-- C1 counterexample: in a concrete session holding ability card 11 in
market A slot 0 with one turn remaining (day 1 of 8, money 0 below the goal
10), the end-turn resolution step that runs outcome evaluation and the day
increment leaves the queued card's `turnsRemaining` still at 1 and the
market-A price unmutated: the day has advanced while the ability card's
effect has not been applied, so the effect is not applied before
`DayAdvance`. -/
theorem C1_counterexample :
    (finish_price_animations_and_advance_day 5000 c1State).Day =
      c1State.Day + 1 ∧
    (finish_price_animations_and_advance_day 5000 c1State).market_card_turns 0 0 = some 1 ∧
    (finish_price_animations_and_advance_day 5000 c1State).Aprice =
      c1State.Aprice ∧
    (finish_price_animations_and_advance_day 5000 c1State).current_card_processing = some (0, 0) := by
  exact ⟨by decide, by decide, by decide, by decide⟩

/-- C1 amended: during end-turn resolution the ability queue is built —
scanning markets A,B,C and within each market slots 0,1,2 in order — and its
processing is started before outcome evaluation and the day increment run,
but the queued cards' price effects and `turnsRemaining` decrements are not
applied there: the finishing step leaves all prices and all
`turnsRemaining` unchanged, and each queued card is processed on a later
update tick, once its inter-card delay has elapsed. -/
theorem C1_ability_processing_deferred :
    (∀ s : GState, List.Pairwise slot_before (ability_queue s)) ∧
    (∀ (s : GState) (p : Nat × Nat),
      p ∈ ability_queue s ↔ p ∈ ability_slots ∧
        ∃ cid, s.market_cards p.1 p.2 = some cid ∧ cid ∈ abilityIds ∧
          ∃ t, s.market_card_turns p.1 p.2 = some t ∧ 0 < t) ∧
    (∀ (now : Nat) (s : GState),
      (ability_queue s = [] →
        (finish_price_animations_and_advance_day now s).cards_11_14_queue =
          []) ∧
      (∀ a t, ability_queue s = a :: t →
        (finish_price_animations_and_advance_day now s).current_card_processing = some a ∧
        (finish_price_animations_and_advance_day now s).cards_11_14_queue =
          t)) ∧
    (∀ (now : Nat) (s : GState),
      (finish_price_animations_and_advance_day now s).Aprice = s.Aprice ∧
      (finish_price_animations_and_advance_day now s).BPrice = s.BPrice ∧
      (finish_price_animations_and_advance_day now s).CPrice = s.CPrice ∧
      (finish_price_animations_and_advance_day now s).market_card_turns =
        s.market_card_turns) ∧
    (∀ (now : Nat) (s : GState),
      (check_win_lose (process_cards_11_14 now
        { s with current_price_animation := none })).win_lose_state = none →
      s.Day < s.LastTurn →
      (finish_price_animations_and_advance_day now s).Day = s.Day + 1) ∧
    (∀ (now : Nat) (s : GState) (m sl cid : Nat) (t : Int),
      s.current_card_processing = some (m, sl) →
      card_processing_delay ≤ now - s.card_processing_start_time →
      s.market_cards m sl = some cid →
      s.market_card_turns m sl = some t →
      0 < t →
      (update_cards_11_14_processing now s).market_card_turns m sl =
        some (t - 1) ∧
      (update_cards_11_14_processing now s).Aprice =
        (apply_card_action m cid s).Aprice ∧
      (update_cards_11_14_processing now s).BPrice =
        (apply_card_action m cid s).BPrice ∧
      (update_cards_11_14_processing now s).CPrice =
        (apply_card_action m cid s).CPrice) := by
  refine ⟨?_, ?_, ?_, ?_, ?_, ?_⟩
  · intro s
    exact List.Pairwise.sublist (List.filter_sublist _) (by decide)
  · intro s p
    unfold ability_queue
    rw [List.mem_filter]
    rcases h1 : s.market_cards p.1 p.2 with _ | cid
    · simp [h1]
    · rcases h2 : s.market_card_turns p.1 p.2 with _ | t
      · simp [h1, h2]
      · simp [h1, h2, List.contains]
  · intro now s
    have hq : ability_queue { s with current_price_animation := none } =
        ability_queue s := rfl
    constructor
    · intro h
      rw [(finish_queue_current now s).1]
      exact ((process_cards_11_14_spec now _).1 (hq.trans h)).1
    · intro a t h
      refine ⟨?_, ?_⟩
      · rw [(finish_queue_current now s).2]
        exact ((process_cards_11_14_spec now _).2 a t (hq.trans h)).2
      · rw [(finish_queue_current now s).1]
        exact ((process_cards_11_14_spec now _).2 a t (hq.trans h)).1
  · intro now s
    unfold finish_price_animations_and_advance_day
    simp only []
    refine ⟨?_, ?_, ?_, ?_⟩ <;> split_ifs <;> simp
  · intro now s h1 h2
    unfold finish_price_animations_and_advance_day
    simp only []
    rw [draw_pending_cards_Day, if_pos h1, if_pos (by simp [h2])]
    simp
  · intro now s m sl cid t h1 h2 h3 h4 h5
    unfold update_cards_11_14_processing
    rw [h1]
    simp only []
    rw [if_neg (not_lt.mpr h2), h3, h4]
    simp only []
    rw [if_pos h5]
    split <;> refine ⟨?_, rfl, rfl, rfl⟩ <;> simp [oset]

/-- Witness for the amended C1 at concrete sessions: the end-turn finish
leaves the market-A ability card queued for processing, and a later
processing tick (past the 300 ms delay) decrements its `turnsRemaining` and
applies its price action. -/
theorem C1_ability_processing_deferred_witness :
    (finish_price_animations_and_advance_day 5000 c1State).current_card_processing = some (0, 0) ∧
    (finish_price_animations_and_advance_day 5000 c1State).cards_11_14_queue = [] ∧
    (update_cards_11_14_processing 500 c1ProcState).market_card_turns 0 0 =
      some 0 ∧
    (update_cards_11_14_processing 500 c1ProcState).Aprice =
      (apply_card_action 0 11 c1ProcState).Aprice :=
  ⟨((C1_ability_processing_deferred.2.2.1 5000 c1State).2 (0, 0) []
      (by decide)).1,
   ((C1_ability_processing_deferred.2.2.1 5000 c1State).2 (0, 0) []
      (by decide)).2,
   (C1_ability_processing_deferred.2.2.2.2.2 500 c1ProcState 0 0 11 1 rfl
      (by decide) (by decide) (by decide) (by decide)).1,
   (C1_ability_processing_deferred.2.2.2.2.2 500 c1ProcState 0 0 11 1 rfl
      (by decide) (by decide) (by decide) (by decide)).2.1⟩

/-- `_apply_price_change` does not touch the market-card grid. -/
@[simp] theorem apply_price_change_market_cards (market : Nat) (d : Int)
    (s : GState) :
    (apply_price_change market d s).market_cards = s.market_cards := by
  unfold apply_price_change
  split_ifs <;> rfl

/-- `_lock_market_cards` does not touch the market-card grid. -/
@[simp] theorem lock_market_cards_market_cards (s : GState) :
    (lock_market_cards s).market_cards = s.market_cards := rfl

/-- Starting a price animation does not touch the market-card grid. -/
@[simp] theorem start_next_price_animation_market_cards (now : Nat)
    (e : AnimEntry) (rest : List AnimEntry) (s : GState) :
    (start_next_price_animation now e rest s).market_cards =
      s.market_cards := by
  simp [start_next_price_animation]

/-- `apply_card_action` does not touch the market-card grid. -/
@[simp] theorem apply_card_action_market_cards (market cid : Nat)
    (s : GState) :
    (apply_card_action market cid s).market_cards = s.market_cards :=
  (apply_card_action_untouched market cid s).1

/-- The end-turn finish step does not touch the market-card grid. -/
@[simp] theorem finish_market_cards (now : Nat) (s : GState) :
    (finish_price_animations_and_advance_day now s).market_cards =
      s.market_cards := by
  unfold finish_price_animations_and_advance_day
  simp only []
  split_ifs <;> simp

/-- `add_quantity` does not touch the market-card grid. -/
@[simp] theorem add_quantity_market_cards (market : Nat) (q : Int)
    (s : GState) :
    (add_quantity market q s).market_cards = s.market_cards := by
  unfold add_quantity
  split_ifs <;> rfl

/-- Buying the maximum does not touch the market-card grid. -/
@[simp] theorem buy_max_market_cards (market : Nat) (s : GState) :
    (buy_max market s).market_cards = s.market_cards := by
  unfold buy_max
  simp only []
  split_ifs <;> simp

/-- Buying one share does not touch the market-card grid. -/
@[simp] theorem buy_one_market_cards (market : Nat) (s : GState) :
    (buy_one market s).market_cards = s.market_cards := by
  unfold buy_one
  simp only []
  split_ifs <;> simp

/-- Selling one share does not touch the market-card grid. -/
@[simp] theorem sell_one_market_cards (market : Nat) (s : GState) :
    (sell_one market s).market_cards = s.market_cards := by
  unfold sell_one
  split_ifs <;> simp

/-- Selling all shares does not touch the market-card grid. -/
@[simp] theorem sell_all_market_cards (market : Nat) (s : GState) :
    (sell_all market s).market_cards = s.market_cards := by
  unfold sell_all
  split_ifs <;> simp

/-- Repositioning a hand card does not touch the market-card grid. -/
@[simp] theorem reposition_hand_market_cards (slot i : Nat) (s : GState) :
    (reposition_hand slot i s).market_cards = s.market_cards := by
  unfold reposition_hand
  split_ifs <;> try rfl
  split <;> rfl

/-- The end-turn click does not touch the market-card grid (it only locks
cards and starts the price animation). -/
@[simp] theorem end_turn_click_market_cards (now : Nat) (ra rb rc : ℚ)
    (s : GState) :
    (end_turn_click now ra rb rc s).market_cards = s.market_cards := by
  cases h : s.current_price_animation <;>
    simp [end_turn_click, h, update_stock_prices]

/-- A price-animation frame does not touch the market-card grid. -/
@[simp] theorem update_price_animation_market_cards (now : Nat)
    (s : GState) :
    (update_price_animation now s).market_cards = s.market_cards := by
  unfold update_price_animation
  repeat' split
  all_goals simp

/-- A card-processing frame does not touch the market-card grid. -/
@[simp] theorem update_cards_11_14_processing_market_cards (now : Nat)
    (s : GState) :
    (update_cards_11_14_processing now s).market_cards = s.market_cards := by
  unfold update_cards_11_14_processing
  simp only []
  repeat' split
  all_goals simp

/-- A hand-compaction frame does not touch the market-card grid. -/
@[simp] theorem update_hand_compact_animation_market_cards (now : Nat)
    (s : GState) :
    (update_hand_compact_animation now s).market_cards = s.market_cards := by
  unfold update_hand_compact_animation
  simp only []
  repeat' split
  all_goals (try split_ifs) <;> rfl

/-- A hand draw-in frame does not touch the market-card grid. -/
@[simp] theorem update_hand_draw_animation_market_cards (now : Nat)
    (s : GState) :
    (update_hand_draw_animation now s).market_cards = s.market_cards := by
  unfold update_hand_draw_animation
  split <;> try rfl
  split_ifs <;> rfl

/-- Characterisation of the first free slot: it is empty, all earlier slots
are occupied, and it is one of 0,1,2. -/
theorem first_free_slot_spec (g : Nat → Nat → Option Nat) (m ff : Nat)
    (h : first_free_slot g m = some ff) :
    g m ff = none ∧ (∀ j, j < ff → (g m j).isSome = true) ∧ ff ≤ 2 := by
  unfold first_free_slot at h
  rcases h0 : g m 0 with _ | v0
  · simp [List.find?, h0] at h
    subst h
    exact ⟨h0, fun j hj => absurd hj (by omega), by omega⟩
  · rcases h1 : g m 1 with _ | v1
    · simp [List.find?, h0, h1] at h
      subst h
      refine ⟨h1, fun j hj => ?_, by omega⟩
      interval_cases j
      simp [h0]
    · rcases h2 : g m 2 with _ | v2
      · simp [List.find?, h0, h1, h2] at h
        subst h
        refine ⟨h2, fun j hj => ?_, by omega⟩
        interval_cases j
        · simp [h0]
        · simp [h1]
      · simp [List.find?, h0, h1, h2] at h

/-- Characterisation of the last occupied slot: it is occupied, all later
slots up to 2 are empty, and it is one of 0,1,2. -/
theorem last_occupied_slot_spec (g : Nat → Nat → Option Nat) (m sl : Nat)
    (h : last_occupied_slot g m = some sl) :
    (g m sl).isSome = true ∧ (∀ j, sl < j → j ≤ 2 → g m j = none) ∧
      sl ≤ 2 := by
  unfold last_occupied_slot at h
  rcases h2 : g m 2 with _ | v2
  · rcases h1 : g m 1 with _ | v1
    · rcases h0 : g m 0 with _ | v0
      · simp [List.find?, h0, h1, h2] at h
      · simp [List.find?, h0, h1, h2] at h
        subst h
        refine ⟨by simp [h0], fun j hj1 hj2 => ?_, by omega⟩
        interval_cases j
        · exact h1
        · exact h2
    · simp [List.find?, h1, h2] at h
      subst h
      refine ⟨by simp [h1], fun j hj1 hj2 => ?_, by omega⟩
      interval_cases j
      exact h2
  · simp [List.find?, h2] at h
    subst h
    exact ⟨by simp [h2], fun j hj1 hj2 => absurd hj1 (by omega), by omega⟩

/-- Placing a card into a market's first free slot preserves the absence of
gaps. -/
theorem grid_add_no_gaps (g : Nat → Nat → Option Nat) (m ff v : Nat)
    (hg : ∀ m1 k, (g m1 (k + 1)).isSome = true → (g m1 k).isSome = true)
    (hff : ∀ j, j < ff → (g m j).isSome = true) :
    ∀ m1 k, ((oset g m ff (some v)) m1 (k + 1)).isSome = true →
      ((oset g m ff (some v)) m1 k).isSome = true := by
  intro m1 k hk
  unfold oset at hk
  unfold oset
  by_cases hcur : m1 = m ∧ k = ff
  · simp [hcur]
  · rw [if_neg hcur]
    by_cases hup : m1 = m ∧ k + 1 = ff
    · rcases hup with ⟨he, hf⟩
      subst he
      exact hff k (by omega)
    · rw [if_neg hup] at hk
      exact hg m1 k hk

/-- Removing a market's last occupied slot preserves the absence of gaps. -/
theorem grid_remove_no_gaps (g : Nat → Nat → Option Nat) (m sl : Nat)
    (hg : ∀ m1 k, (g m1 (k + 1)).isSome = true → (g m1 k).isSome = true)
    (hhigh : ∀ m1 k, 2 < k → g m1 k = none)
    (habove : ∀ j, sl < j → j ≤ 2 → g m j = none) :
    ∀ m1 k, ((oset g m sl none) m1 (k + 1)).isSome = true →
      ((oset g m sl none) m1 k).isSome = true := by
  intro m1 k hk
  unfold oset at hk ⊢
  by_cases hup : m1 = m ∧ k + 1 = sl
  · rw [if_pos hup] at hk
    simp at hk
  · rw [if_neg hup] at hk
    by_cases hcur : m1 = m ∧ k = sl
    · rcases hcur with ⟨he, hks⟩
      subst he
      subst hks
      by_cases hk2 : k + 1 ≤ 2
      · rw [habove (k + 1) (by omega) hk2] at hk
        simp at hk
      · rw [hhigh m1 (k + 1) (by omega)] at hk
        simp at hk
    · rw [if_neg hcur]
      exact hg m1 k hk

/-- A point update at a slot with index at most 2 (or clearing any slot)
keeps all slots beyond index 2 empty. -/
theorem oset_high_empty (g : Nat → Nat → Option Nat) (m sl : Nat)
    (v : Option Nat) (hhigh : ∀ m1 k, 2 < k → g m1 k = none)
    (hv : v = none ∨ sl ≤ 2) :
    ∀ m1 k, 2 < k → (oset g m sl v) m1 k = none := by
  intro m1 k hk
  unfold oset
  rcases hv with hv | hv
  · split_ifs with h
    · exact hv
    · exact hhigh m1 k hk
  · rw [if_neg (by rintro ⟨_, h⟩; omega)]
    exact hhigh m1 k hk

/-- The slot invariant only depends on the market-card grid. -/
theorem slot_inv_of_eq {s t : GState}
    (h : t.market_cards = s.market_cards) (hs : SlotInv s) : SlotInv t := by
  unfold SlotInv NoGaps at hs ⊢
  rw [h]
  exact hs

/-- Playing a hand card to a market preserves the slot invariant: a
successful drop lands in the first free slot. -/
theorem drop_hand_to_market_slot_inv (market slot i : Nat) (s : GState)
    (hs : SlotInv s) : SlotInv (drop_hand_to_market market slot i s) := by
  unfold drop_hand_to_market
  rcases hff : first_free_slot s.market_cards market with _ | ff
  · split_ifs <;> exact hs
  · simp only []
    split_ifs with h1 h2 h3 <;> try exact hs
    rcases hc : s.hand_cards.getD i none with _ | cid
    · exact hs
    · obtain ⟨hff1, hff2, hff3⟩ := first_free_slot_spec _ _ _ hff
      have hslot : slot = ff := not_ne_iff.mp h2
      subst hslot
      obtain ⟨hhigh, hng⟩ := hs
      refine ⟨?_, ?_⟩
      · exact oset_high_empty _ _ _ _ hhigh (Or.inr hff3)
      · exact grid_add_no_gaps _ _ _ _ hng hff2

/-- Moving a card between markets preserves the slot invariant: the card
leaves the last occupied slot of the source market and lands in the first
free slot of the destination market. -/
theorem move_market_to_market_slot_inv (market slot sm ss : Nat)
    (s : GState) (hs : SlotInv s) :
    SlotInv (move_market_to_market market slot sm ss s) := by
  unfold move_market_to_market
  rcases hff : first_free_slot s.market_cards market with _ | ff
  · split_ifs <;> exact hs
  · simp only []
    split_ifs with hguard h1 h2 h3 h4 <;> try exact hs
    all_goals rcases hc : s.market_cards sm ss with _ | cid
    all_goals try exact hs
    all_goals obtain ⟨hff1, hff2, hff3⟩ := first_free_slot_spec _ _ _ hff
    all_goals obtain ⟨hlo1, hlo2, hlo3⟩ :=
      last_occupied_slot_spec _ _ _ hguard.2.2
    all_goals obtain ⟨hhigh, hng⟩ := hs
    all_goals have hslot : slot = ff := not_ne_iff.mp h4
    all_goals subst hslot
    all_goals have hng1 :=
      grid_add_no_gaps s.market_cards market slot cid hng hff2
    all_goals have hhigh1 := oset_high_empty s.market_cards market slot (some cid) hhigh (Or.inr hff3)
    all_goals exact ⟨oset_high_empty _ _ _ _ hhigh1 (Or.inl rfl),
      grid_remove_no_gaps _ _ _ hng1 hhigh1 (fun j hj1 hj2 => by
        unfold oset
        rw [if_neg (by rintro ⟨he, _⟩; exact h3 he.symm)]
        exact hlo2 j hj1 hj2)⟩

/-- Returning a card from a market to the hand preserves the slot
invariant: the card leaves the last occupied slot of its market. -/
theorem move_market_to_hand_slot_inv (slot sm ss : Nat) (s : GState)
    (hs : SlotInv s) : SlotInv (move_market_to_hand slot sm ss s) := by
  unfold move_market_to_hand
  rcases ho : s.market_card_origins sm ss with _ | origin
  · split_ifs <;> exact hs
  · simp only []
    split_ifs with hguard h1 <;> try exact hs
    rcases hc : s.market_cards sm ss with _ | cid
    · exact hs
    · obtain ⟨hlo1, hlo2, hlo3⟩ := last_occupied_slot_spec _ _ _ hguard.2.2
      obtain ⟨hhigh, hng⟩ := hs
      refine ⟨?_, ?_⟩
      · exact oset_high_empty _ _ _ _ hhigh (Or.inl rfl)
      · exact grid_remove_no_gaps _ _ _ hng hhigh hlo2

/-- Every reachable session state satisfies the strengthened slot
invariant. -/
theorem reachable_slot_inv {s : GState} (h : Reachable s) : SlotInv s := by
  induction h with
  | init goal last_turn dobor deck interval flen bframe =>
    refine ⟨fun m k hk => rfl, fun m k hk => ?_⟩
    simp [init_state] at hk
  | step hr hstep ih =>
    rename_i s1 t1
    cases hstep with
    | drop_hand_to_market market slot i =>
      exact drop_hand_to_market_slot_inv market slot i _ ih
    | move_market_to_market market slot sm ss =>
      exact move_market_to_market_slot_inv market slot sm ss _ ih
    | move_market_to_hand slot sm ss =>
      exact move_market_to_hand_slot_inv slot sm ss _ ih
    | reposition_hand slot i =>
      exact slot_inv_of_eq (reposition_hand_market_cards slot i _) ih
    | buy_max market =>
      exact slot_inv_of_eq (buy_max_market_cards market _) ih
    | buy_one market =>
      exact slot_inv_of_eq (buy_one_market_cards market _) ih
    | sell_one market =>
      exact slot_inv_of_eq (sell_one_market_cards market _) ih
    | sell_all market =>
      exact slot_inv_of_eq (sell_all_market_cards market _) ih
    | end_turn_click now ra rb rc =>
      exact slot_inv_of_eq (end_turn_click_market_cards now ra rb rc _) ih
    | update_price_animation now =>
      exact slot_inv_of_eq (update_price_animation_market_cards now _) ih
    | update_cards_11_14_processing now =>
      exact slot_inv_of_eq
        (update_cards_11_14_processing_market_cards now _) ih
    | update_hand_compact_animation now =>
      exact slot_inv_of_eq
        (update_hand_compact_animation_market_cards now _) ih
    | update_hand_draw_animation now =>
      exact slot_inv_of_eq
        (update_hand_draw_animation_market_cards now _) ih

/-- C7: every reachable state has no market slot occupied above an empty
one (cards always land in the first empty slot in index order), and an
attempted drop into slot `k` while slot `k-1` of that market is empty is a
no-op, both from the hand and from another market. -/
theorem C7_slot_frontier :
    (∀ s : GState, Reachable s → NoGaps s) ∧
    (∀ (s : GState) (m k i : Nat), 0 < k → s.market_cards m (k - 1) = none →
      drop_hand_to_market m k i s = s) ∧
    (∀ (s : GState) (m k sm ss : Nat), 0 < k →
      s.market_cards m (k - 1) = none →
      move_market_to_market m k sm ss s = s) := by
  refine ⟨fun s h => (reachable_slot_inv h).2, ?_, ?_⟩
  · intro s m k i hk0 hempty
    unfold drop_hand_to_market
    rcases hff : first_free_slot s.market_cards m with _ | ff
    · split_ifs <;> rfl
    · have hk : k ≠ ff := by
        intro he
        obtain ⟨_, hff2, _⟩ := first_free_slot_spec _ _ _ hff
        have h2 := hff2 (k - 1) (by omega)
        rw [hempty] at h2
        simp at h2
      simp only []
      rw [if_pos hk]
      split_ifs <;> rfl
  · intro s m k sm ss hk0 hempty
    unfold move_market_to_market
    rcases hff : first_free_slot s.market_cards m with _ | ff
    · split_ifs <;> rfl
    · have hk : k ≠ ff := by
        intro he
        obtain ⟨_, hff2, _⟩ := first_free_slot_spec _ _ _ hff
        have h2 := hff2 (k - 1) (by omega)
        rw [hempty] at h2
        simp at h2
      simp only []
      rw [if_pos hk]
      split_ifs <;> rfl

/-- Witness for C7: a fresh session has no gaps, and in a concrete session
whose market A holds a card only in slot 0, dropping into slot 2 (slot 1
empty) is a no-op both from the hand and from another market. -/
theorem C7_slot_frontier_witness :
    NoGaps testState ∧
    drop_hand_to_market 0 2 0 c1State = c1State ∧
    move_market_to_market 0 2 1 0 c1State = c1State :=
  ⟨C7_slot_frontier.1 testState
      (Reachable.init 10 8 1 [] 100 (fun _ => 5) true),
   C7_slot_frontier.2.1 c1State 0 2 0 (by decide) (by decide),
   C7_slot_frontier.2.2 c1State 0 2 1 0 (by decide) (by decide)⟩

/-- `fillFrom` never changes the length of the list it writes into. -/
@[simp] theorem fillFrom_length (l : List (Option Nat)) (i : Nat)
    (cards : List Nat) : (fillFrom l i cards).length = l.length := by
  induction cards generalizing l i with
  | nil => rfl
  | cons c cs ih =>
    rw [fillFrom, ih]
    simp

/-- Landing the draw-in cards never changes the length of the hand. -/
theorem draw_anim_foldl_length (entries : List DrawAnimEntry)
    (h : List (Option Nat)) :
    (entries.foldl (fun h1 e =>
      if e.target_slot < h1.length then
        h1.set e.target_slot (some (normalizeCard e.card_id))
      else h1) h).length = h.length := by
  induction entries generalizing h with
  | nil => rfl
  | cons e es ih =>
    rw [List.foldl_cons, ih]
    split_ifs <;> simp

/-- The hand-size invariant only depends on three fields. -/
theorem hand_inv_congr {s t : GState} (h1 : t.hand = s.hand)
    (h2 : t.hand_cards = s.hand_cards)
    (h3 : t.hand_compact_target_hand = s.hand_compact_target_hand)
    (hs : HandInv s) : HandInv t := by
  unfold HandInv at hs ⊢
  rw [h1, h2, h3]
  exact hs

/-- `_check_win_lose` does not touch the compaction target. -/
@[simp] theorem check_win_lose_hand_compact_target_hand (s : GState) :
    (check_win_lose s).hand_compact_target_hand =
      s.hand_compact_target_hand := by
  unfold check_win_lose
  cases s.win_lose_state
  · split_ifs <;> rfl
  · rfl

/-- `_process_cards_11_14` does not touch the compaction target. -/
@[simp] theorem process_cards_11_14_hand_compact_target_hand (now : Nat)
    (s : GState) :
    (process_cards_11_14 now s).hand_compact_target_hand =
      s.hand_compact_target_hand := by
  unfold process_cards_11_14
  cases ability_queue s <;> rfl

/-- The hand fields untouched by `_apply_price_change`. -/
@[simp] theorem apply_price_change_hand_fields (market : Nat) (d : Int)
    (s : GState) :
    (apply_price_change market d s).hand = s.hand ∧
    (apply_price_change market d s).hand_cards = s.hand_cards ∧
    (apply_price_change market d s).hand_compact_target_hand =
      s.hand_compact_target_hand := by
  unfold apply_price_change
  split_ifs <;> exact ⟨rfl, rfl, rfl⟩

/-- The hand fields untouched by `apply_card_action`. -/
@[simp] theorem apply_card_action_hand_fields (market cid : Nat)
    (s : GState) :
    (apply_card_action market cid s).hand = s.hand ∧
    (apply_card_action market cid s).hand_cards = s.hand_cards ∧
    (apply_card_action market cid s).hand_compact_target_hand =
      s.hand_compact_target_hand := by
  unfold apply_card_action
  simp only []
  split_ifs <;> exact ⟨rfl, rfl, rfl⟩

/-- The hand fields untouched by a card-processing frame. -/
theorem update_cards_11_14_processing_hand_fields (now : Nat) (s : GState) :
    (update_cards_11_14_processing now s).hand = s.hand ∧
    (update_cards_11_14_processing now s).hand_cards = s.hand_cards ∧
    (update_cards_11_14_processing now s).hand_compact_target_hand =
      s.hand_compact_target_hand := by
  unfold update_cards_11_14_processing
  simp only []
  repeat' split
  all_goals refine ⟨?_, ?_, ?_⟩
  all_goals simp [(apply_card_action_hand_fields _ _ _).1,
    (apply_card_action_hand_fields _ _ _).2.1,
    (apply_card_action_hand_fields _ _ _).2.2]

/-- The hand fields untouched by `add_quantity`. -/
@[simp] theorem add_quantity_hand_fields (market : Nat) (q : Int)
    (s : GState) :
    (add_quantity market q s).hand = s.hand ∧
    (add_quantity market q s).hand_cards = s.hand_cards ∧
    (add_quantity market q s).hand_compact_target_hand =
      s.hand_compact_target_hand := by
  unfold add_quantity
  split_ifs <;> exact ⟨rfl, rfl, rfl⟩

/-- `_draw_pending_cards` preserves the hand-size invariant. -/
theorem draw_pending_cards_hand_inv (now : Nat) (s : GState)
    (hs : HandInv s) : HandInv (draw_pending_cards now s) := by
  obtain ⟨h7, hlen, htg⟩ := hs
  unfold draw_pending_cards
  simp only []
  split_ifs
  all_goals refine ⟨h7, ?_, fun t ht => ?_⟩
  all_goals try exact hlen
  all_goals try (simp only [] at ht; injection ht with hteq; subst hteq)
  all_goals try (simp at ht)
  all_goals simp [fillFrom_length, h7, hlen]
  all_goals omega

/-- A hand-compaction frame preserves the hand-size invariant. -/
theorem update_hand_compact_animation_hand_inv (now : Nat) (s : GState)
    (hs : HandInv s) : HandInv (update_hand_compact_animation now s) := by
  obtain ⟨h7, hlen, htg⟩ := hs
  unfold update_hand_compact_animation
  rcases ha : s.hand_compact_anim with _ | ⟨mv, mvs⟩
  · exact ⟨h7, hlen, htg⟩
  · rcases htgt : s.hand_compact_target_hand with _ | tg
    · simp only []
      split_ifs <;> try exact ⟨h7, hlen, htg⟩
      all_goals try rcases hffh : first_free_hand s.hand_cards with _ | ff
      all_goals try split_ifs
      all_goals refine ⟨h7, ?_, fun t ht => by simp at ht⟩
      all_goals simp [fillFrom_length, hlen]
    · have htglen : tg.length = 7 := htg tg htgt
      simp only []
      split_ifs <;> try exact ⟨h7, hlen, htg⟩
      all_goals try rcases hffh : first_free_hand tg with _ | ff
      all_goals try split_ifs
      all_goals refine ⟨h7, ?_, fun t ht => by simp at ht⟩
      all_goals simp [fillFrom_length, hlen, htglen]

/-- A hand draw-in frame preserves the hand-size invariant. -/
theorem update_hand_draw_animation_hand_inv (now : Nat) (s : GState)
    (hs : HandInv s) : HandInv (update_hand_draw_animation now s) := by
  obtain ⟨h7, hlen, htg⟩ := hs
  unfold update_hand_draw_animation
  rcases ha : s.hand_draw_anim with _ | ⟨e, es⟩
  · exact ⟨h7, hlen, htg⟩
  · split_ifs
    · exact ⟨h7, by rw [draw_anim_foldl_length]; exact hlen, htg⟩
    · exact ⟨h7, hlen, htg⟩

/-- `_check_win_lose` preserves the hand-size invariant. -/
theorem check_win_lose_hand_inv {s : GState} (hs : HandInv s) :
    HandInv (check_win_lose s) :=
  hand_inv_congr (check_win_lose_untouched s).2.2.2.2.2.2.2.2.2.2.2.1
    (check_win_lose_untouched s).2.2.2.2.2.2.2.2.2.2.2.2.1
    (check_win_lose_hand_compact_target_hand s) hs

/-- The end-turn finish step preserves the hand-size invariant. -/
theorem finish_hand_inv (now : Nat) {s : GState} (hs : HandInv s) :
    HandInv (finish_price_animations_and_advance_day now s) := by
  unfold finish_price_animations_and_advance_day
  simp only []
  apply draw_pending_cards_hand_inv
  have h1 : HandInv (process_cards_11_14 now
      { s with current_price_animation := none }) :=
    hand_inv_congr (process_cards_11_14_untouched now _).2.2.2.2.2.2.2.2.2.2.1
      (process_cards_11_14_untouched now _).2.2.2.2.2.2.2.2.2.2.2.1
      (process_cards_11_14_hand_compact_target_hand now _)
      (hand_inv_congr rfl rfl rfl hs)
  have h2 := check_win_lose_hand_inv h1
  split_ifs
  · exact check_win_lose_hand_inv (hand_inv_congr rfl rfl rfl h2)
  · exact hand_inv_congr rfl rfl rfl h2
  · exact hand_inv_congr rfl rfl rfl h2
  · exact h2

/-- Starting a price animation preserves the hand-size invariant. -/
theorem start_next_price_animation_hand_inv (now : Nat) (e : AnimEntry)
    (rest : List AnimEntry) {s : GState} (hs : HandInv s) :
    HandInv (start_next_price_animation now e rest s) := by
  unfold start_next_price_animation
  simp only []
  exact hand_inv_congr (apply_price_change_hand_fields _ _ _).1
    (apply_price_change_hand_fields _ _ _).2.1
    (apply_price_change_hand_fields _ _ _).2.2 hs

/-- A price-animation frame preserves the hand-size invariant. -/
theorem update_price_animation_hand_inv (now : Nat) {s : GState}
    (hs : HandInv s) : HandInv (update_price_animation now s) := by
  unfold update_price_animation
  rcases h : s.current_price_animation with _ | cur
  · rcases hq : s.price_animation_queue with _ | ⟨e, rest⟩
    · exact hs
    · exact start_next_price_animation_hand_inv now e rest hs
  · simp only []
    split_ifs
    all_goals try exact hs
    all_goals rcases hq : s.price_animation_queue with _ | ⟨e, rest⟩
    all_goals try exact finish_hand_inv now hs
    all_goals try exact start_next_price_animation_hand_inv now e rest hs
    all_goals exact hand_inv_congr rfl rfl rfl hs

/-- The end-turn click preserves the hand-size invariant. -/
theorem end_turn_click_hand_inv (now : Nat) (ra rb rc : ℚ) {s : GState}
    (hs : HandInv s) : HandInv (end_turn_click now ra rb rc s) := by
  unfold end_turn_click
  rcases h : s.current_price_animation with _ | cur
  · simp only []
    have hlock : HandInv (lock_market_cards s) :=
      hand_inv_congr rfl rfl rfl hs
    rcases hq : update_stock_prices s ra rb rc with _ | ⟨e, rest⟩
    · apply draw_pending_cards_hand_inv
      have h2 := check_win_lose_hand_inv hlock
      split_ifs
      · exact check_win_lose_hand_inv (hand_inv_congr rfl rfl rfl h2)
      · exact hand_inv_congr rfl rfl rfl h2
      · exact hand_inv_congr rfl rfl rfl h2
      · exact h2
    · exact start_next_price_animation_hand_inv now e rest hlock
  · exact hs

/-- Playing a hand card to a market preserves the hand-size invariant. -/
theorem drop_hand_to_market_hand_inv (market slot i : Nat) {s : GState}
    (hs : HandInv s) : HandInv (drop_hand_to_market market slot i s) := by
  obtain ⟨h7, hlen, htg⟩ := hs
  unfold drop_hand_to_market
  rcases hff : first_free_slot s.market_cards market with _ | ff
  · split_ifs <;> exact ⟨h7, hlen, htg⟩
  · simp only []
    split_ifs <;> try exact ⟨h7, hlen, htg⟩
    all_goals rcases hc : s.hand_cards.getD i none with _ | cid
    all_goals try exact ⟨h7, hlen, htg⟩
    all_goals exact ⟨h7, by simp [hlen], htg⟩

/-- Moving a card between markets preserves the hand-size invariant. -/
theorem move_market_to_market_hand_inv (market slot sm ss : Nat)
    {s : GState} (hs : HandInv s) :
    HandInv (move_market_to_market market slot sm ss s) := by
  obtain ⟨h7, hlen, htg⟩ := hs
  unfold move_market_to_market
  rcases hff : first_free_slot s.market_cards market with _ | ff
  · split_ifs <;> exact ⟨h7, hlen, htg⟩
  · simp only []
    split_ifs <;> try exact ⟨h7, hlen, htg⟩
    all_goals rcases hc : s.market_cards sm ss with _ | cid
    all_goals exact ⟨h7, hlen, htg⟩

/-- Returning a card from a market to the hand preserves the hand-size
invariant. -/
theorem move_market_to_hand_hand_inv (slot sm ss : Nat) {s : GState}
    (hs : HandInv s) : HandInv (move_market_to_hand slot sm ss s) := by
  obtain ⟨h7, hlen, htg⟩ := hs
  unfold move_market_to_hand
  rcases ho : s.market_card_origins sm ss with _ | origin
  · split_ifs <;> exact ⟨h7, hlen, htg⟩
  · simp only []
    split_ifs <;> try exact ⟨h7, hlen, htg⟩
    all_goals rcases hc : s.market_cards sm ss with _ | cid
    all_goals try exact ⟨h7, hlen, htg⟩
    all_goals exact ⟨h7, by simp [hlen], htg⟩

/-- Repositioning a hand card preserves the hand-size invariant. -/
theorem reposition_hand_hand_inv (slot i : Nat) {s : GState}
    (hs : HandInv s) : HandInv (reposition_hand slot i s) := by
  obtain ⟨h7, hlen, htg⟩ := hs
  unfold reposition_hand
  split_ifs <;> try exact ⟨h7, hlen, htg⟩
  rcases hc : s.hand_cards.getD i none with _ | cid
  · exact ⟨h7, hlen, htg⟩
  · exact ⟨h7, by simp [hlen], htg⟩

/-- Buying and selling preserve the hand-size invariant. -/
theorem trade_hand_inv (market : Nat) {s : GState} (hs : HandInv s) :
    HandInv (buy_max market s) ∧ HandInv (buy_one market s) ∧
    HandInv (sell_one market s) ∧ HandInv (sell_all market s) := by
  have hadd : ∀ (q : Int) (s1 : GState), HandInv s1 →
      HandInv (add_quantity market q s1) := fun q s1 hs1 =>
    hand_inv_congr (add_quantity_hand_fields _ _ _).1
      (add_quantity_hand_fields _ _ _).2.1
      (add_quantity_hand_fields _ _ _).2.2 hs1
  refine ⟨?_, ?_, ?_, ?_⟩
  · unfold buy_max
    simp only []
    split_ifs
    all_goals try exact hs
    exact hadd _ _ (check_win_lose_hand_inv (hand_inv_congr rfl rfl rfl hs))
  · unfold buy_one
    simp only []
    split_ifs
    · exact hadd _ _ (check_win_lose_hand_inv (hand_inv_congr rfl rfl rfl hs))
    · exact hs
  · unfold sell_one
    split_ifs
    · exact check_win_lose_hand_inv (hadd _ _ (hand_inv_congr rfl rfl rfl hs))
    · exact hs
  · unfold sell_all
    split_ifs <;>
      exact check_win_lose_hand_inv (hand_inv_congr rfl rfl rfl hs)

/-- A card-processing frame preserves the hand-size invariant. -/
theorem update_cards_11_14_processing_hand_inv (now : Nat) {s : GState}
    (hs : HandInv s) : HandInv (update_cards_11_14_processing now s) :=
  hand_inv_congr (update_cards_11_14_processing_hand_fields now s).1
    (update_cards_11_14_processing_hand_fields now s).2.1
    (update_cards_11_14_processing_hand_fields now s).2.2 hs

/-- Every reachable session state satisfies the hand-size invariant. -/
theorem reachable_hand_inv {s : GState} (h : Reachable s) : HandInv s := by
  induction h with
  | init goal last_turn dobor deck interval flen bframe =>
    refine ⟨rfl, ?_, fun t ht => by simp [init_state] at ht⟩
    simp [init_state]
    try omega
  | step hr hstep ih =>
    cases hstep with
    | drop_hand_to_market market slot i =>
      exact drop_hand_to_market_hand_inv market slot i ih
    | move_market_to_market market slot sm ss =>
      exact move_market_to_market_hand_inv market slot sm ss ih
    | move_market_to_hand slot sm ss =>
      exact move_market_to_hand_hand_inv slot sm ss ih
    | reposition_hand slot i => exact reposition_hand_hand_inv slot i ih
    | buy_max market => exact (trade_hand_inv market ih).1
    | buy_one market => exact (trade_hand_inv market ih).2.1
    | sell_one market => exact (trade_hand_inv market ih).2.2.1
    | sell_all market => exact (trade_hand_inv market ih).2.2.2
    | end_turn_click now ra rb rc => exact end_turn_click_hand_inv now ra rb rc ih
    | update_price_animation now => exact update_price_animation_hand_inv now ih
    | update_cards_11_14_processing now =>
      exact update_cards_11_14_processing_hand_inv now ih
    | update_hand_compact_animation now =>
      exact update_hand_compact_animation_hand_inv now _ ih
    | update_hand_draw_animation now =>
      exact update_hand_draw_animation_hand_inv now _ ih

/-- C9: the hand of every reachable session is an array of exactly 7
optional card slots (`hand = 7` and `len(hand_cards) = 7`); all operations
(initial deal, plays, returns, repositions, compaction and draws) preserve
this, empty positions being `none` rather than removed. -/
theorem C9_hand_size_invariant :
    ∀ s : GState, Reachable s → s.hand = 7 ∧ s.hand_cards.length = 7 :=
  fun _ h => ⟨(reachable_hand_inv h).1, (reachable_hand_inv h).2.1⟩

/-- Witness for C9 at a concrete freshly constructed session. -/
theorem C9_hand_size_invariant_witness :
    testState.hand = 7 ∧ testState.hand_cards.length = 7 :=
  C9_hand_size_invariant testState
    (Reachable.init 10 8 1 [] 100 (fun _ => 5) true)

/-- The occupied-slot list of the hand carries exactly the non-empty cards
in order. -/
theorem enumFrom_existing_map_snd (h : List (Option Nat)) :
    ∀ j : Nat, ((h.enumFrom j).filterMap
      (fun p => p.2.map (fun c => (p.1, c)))).map Prod.snd =
      h.filterMap id := by
  induction h with
  | nil => intro j; rfl
  | cons x t ih =>
    intro j
    cases x <;> simp [List.enumFrom, List.filterMap_cons, ih]

/-- `existing_of` lists the hand's cards, with indices, in order. -/
theorem existing_of_map_snd (h : List (Option Nat)) :
    (existing_of h).map Prod.snd = h.filterMap id := by
  unfold existing_of
  rw [List.enum]
  exact enumFrom_existing_map_snd h 0

/-- `existing_of` has as many entries as the hand has cards. -/
theorem existing_of_length (h : List (Option Nat)) :
    (existing_of h).length = (h.filterMap id).length := by
  rw [← existing_of_map_snd]
  simp

/-- `existing_of` is empty exactly when the hand holds no cards. -/
theorem existing_of_eq_nil_iff (h : List (Option Nat)) :
    existing_of h = [] ↔ h.filterMap id = [] := by
  constructor
  · intro he
    rw [← existing_of_map_snd, he]
    rfl
  · intro he
    have h2 := existing_of_map_snd h
    rw [he] at h2
    exact List.map_eq_nil.mp h2

/-- A hand with no cards and length 7 is seven empty slots. -/
theorem hand_all_none (h : List (Option Nat))
    (hf : h.filterMap id = []) (hl : h.length = 7) :
    h = List.replicate 7 none := by
  rw [List.eq_replicate]
  refine ⟨hl, ?_⟩
  intro b hb
  cases hb2 : b with
  | none => rfl
  | some c =>
    subst hb2
    have : c ∈ h.filterMap id := List.mem_filterMap.mpr ⟨some c, hb, rfl⟩
    rw [hf] at this
    simp at this

/-- Setting the element just past a prefix writes into the suffix. -/
theorem set_at_append (pre l2 : List (Option Nat)) (v : Option Nat) :
    (pre ++ l2).set pre.length v = pre ++ l2.set 0 v := by
  induction pre with
  | nil => rfl
  | cons a t ih => simp [List.set, ih]

/-- The legacy-id shim is idempotent. -/
theorem normalizeCard_idem (c : Nat) :
    normalizeCard (normalizeCard c) = normalizeCard c := by
  unfold normalizeCard
  split_ifs <;> simp_all

/-- Writing `cards` just past a prefix fills the leading empty slots. -/
theorem fillFrom_append (cards : List Nat) :
    ∀ (pre : List (Option Nat)) (pad : Nat), cards.length ≤ pad →
      fillFrom (pre ++ List.replicate pad none) pre.length cards =
        pre ++ cards.map some ++ List.replicate (pad - cards.length) none := by
  induction cards with
  | nil =>
    intro pre pad hlen
    simp [fillFrom]
  | cons c cs ih =>
    intro pre pad hlen
    rcases pad with _ | pad2
    · simp at hlen
    · rw [fillFrom]
      have hrep : List.replicate (pad2 + 1) (none : Option Nat) =
          none :: List.replicate pad2 none := rfl
      rw [hrep, set_at_append]
      have hstep : (pre ++ (none :: List.replicate pad2 none).set 0 (some c)) =
          (pre ++ [some c]) ++ List.replicate pad2 none := by
        simp
      rw [hstep]
      have hlen2 : (pre ++ [some c]).length = pre.length + 1 := by simp
      rw [← hlen2, ih (pre ++ [some c]) pad2 (by simpa using hlen)]
      simp [List.append_assoc]
      try omega

/-- Re-indexing the draw-in animation entries: adding a base offset to a
zero-based enumeration is an enumeration from the base. -/
theorem enum_shift (l : List Nat) :
    ∀ (st j : Nat), (l.enumFrom j).map
        (fun q => DrawAnimEntry.mk q.2 (st + q.1)) =
      (l.enumFrom (st + j)).map (fun q => DrawAnimEntry.mk q.2 q.1) := by
  induction l with
  | nil => intro st j; rfl
  | cons c cs ih =>
    intro st j
    simp only [List.enumFrom, List.map_cons]
    rw [ih st (j + 1)]
    have : st + (j + 1) = st + j + 1 := by omega
    rw [this]

/-- Landing the scheduled draw-in cards just past a prefix fills the
leading empty slots with the (re-normalised) card ids, in order. -/
theorem land_aux (cards : List Nat) :
    ∀ (pre : List (Option Nat)) (pad : Nat), cards.length ≤ pad →
      (((cards.enumFrom pre.length).map
          (fun q => DrawAnimEntry.mk q.2 q.1)).foldl
        (fun h1 e =>
          if e.target_slot < h1.length then
            h1.set e.target_slot (some (normalizeCard e.card_id))
          else h1)
        (pre ++ List.replicate pad none)) =
      pre ++ cards.map (fun c => some (normalizeCard c)) ++
        List.replicate (pad - cards.length) none := by
  induction cards with
  | nil =>
    intro pre pad hlen
    simp
  | cons c cs ih =>
    intro pre pad hlen
    rcases pad with _ | pad2
    · simp at hlen
    · simp only [List.enumFrom, List.map_cons, List.foldl_cons]
      rw [if_pos (by simp)]
      have hrep : List.replicate (pad2 + 1) (none : Option Nat) =
          none :: List.replicate pad2 none := rfl
      rw [hrep, set_at_append]
      have hstep : (pre ++ (none :: List.replicate pad2 none).set 0
          (some (normalizeCard c))) =
          (pre ++ [some (normalizeCard c)]) ++ List.replicate pad2 none := by
        simp
      rw [hstep]
      have hlen2 : (pre ++ [some (normalizeCard c)]).length =
          pre.length + 1 := by simp
      rw [← hlen2, ih (pre ++ [some (normalizeCard c)]) pad2
        (by simpa using hlen)]
      simp [List.append_assoc]
      try omega

/-- The first empty slot of a compacted hand with a non-empty tail of
empties is the slot just past the cards. -/
theorem first_free_hand_compacted (cards : List (Option Nat)) (m : Nat)
    (hm : 0 < m) (hc : ∀ x ∈ cards, x.isSome = true) :
    first_free_hand (cards ++ List.replicate m none) = some cards.length := by
  unfold first_free_hand
  induction cards with
  | nil =>
    rcases m with _ | m2
    · omega
    · simp [List.findIdx?_cons]
  | cons x t ih =>
    have hx : x.isSome = true := hc x (by simp)
    have hxn : x.isNone = false := by
      cases x
      · simp at hx
      · rfl
    simp only [List.cons_append, List.findIdx?_cons, List.findIdx?_succ, hxn]
    rw [ih (fun y hy => hc y (by simp [hy]))]
    simp

/-- A compacted hand with a non-empty tail of empties has an empty slot. -/
theorem any_none_of_replicate (cards : List (Option Nat)) (m : Nat)
    (hm : 0 < m) :
    (cards ++ List.replicate m none).any (fun c => c.isNone) = true := by
  rw [List.any_append]
  rcases m with _ | m2
  · omega
  · simp [List.replicate, List.any_cons]

/-- A hand-compaction frame with no scheduled moves does nothing. -/
theorem compact_noop (now : Nat) (s : GState)
    (h : s.hand_compact_anim = []) :
    update_hand_compact_animation now s = s := by
  unfold update_hand_compact_animation
  rw [h]

/-- A draw-in frame with no scheduled cards does nothing. -/
theorem draw_noop (now : Nat) (s : GState) (h : s.hand_draw_anim = []) :
    update_hand_draw_animation now s = s := by
  unfold update_hand_draw_animation
  rw [h]

/-- Filling an all-empty hand from slot 0. -/
theorem fillFrom_replicate (cards : List Nat) (m : Nat)
    (h : cards.length ≤ m) :
    fillFrom (List.replicate m none) 0 cards =
      cards.map some ++ List.replicate (m - cards.length) none := by
  have h2 := fillFrom_append cards [] m h
  simpa using h2

/-- Landing the draw-in entries built by the code (zero-based enumeration
shifted by the first free slot) fills the trailing empty slots in order. -/
theorem land (cards : List Nat) (pre : List (Option Nat)) (pad st : Nat)
    (hst : st = pre.length) (h : cards.length ≤ pad) :
    ((cards.enum.map (fun q => DrawAnimEntry.mk q.2 (st + q.1))).foldl
      (fun h1 e =>
        if e.target_slot < h1.length then
          h1.set e.target_slot (some (normalizeCard e.card_id))
        else h1)
      (pre ++ List.replicate pad none)) =
    pre ++ cards.map (fun c => some (normalizeCard c)) ++
      List.replicate (pad - cards.length) none := by
  subst hst
  rw [List.enum, enum_shift cards pre.length 0]
  have h0 : pre.length + 0 = pre.length := rfl
  rw [h0]
  exact land_aux cards pre pad h

theorem draw_fire (now : Nat) (s : GState) (hne : s.hand_draw_anim ≠ [])
    (hc : hand_draw_duration ≤ now - s.hand_draw_start_time) :
    update_hand_draw_animation now s =
      { s with
        hand_cards := s.hand_draw_anim.foldl (fun h1 e =>
          if e.target_slot < h1.length then
            h1.set e.target_slot (some (normalizeCard e.card_id))
          else h1) s.hand_cards,
        hand_draw_anim := [] } := by
  unfold update_hand_draw_animation
  rcases hE : s.hand_draw_anim with _ | ⟨e, es⟩
  · exact absurd hE hne
  · simp only []
    rw [if_pos hc]

theorem compact_fire_spec (now : Nat) (s : GState) (pre : List (Option Nat))
    (pad : Nat)
    (hpre : ∀ x ∈ pre, x.isSome = true)
    (hne : s.hand_compact_anim ≠ [])
    (hc : hand_compact_duration ≤ now - s.hand_compact_start_time)
    (htg : s.hand_compact_target_hand = some (pre ++ List.replicate pad none))
    (hbf2 : s.bottom_frame = true)
    (h72 : s.hand = pre.length + pad)
    (hk : s.hand_compact_draw_count ≤ pad)
    (hkd : s.hand_compact_draw_count ≤ s.deck.length) :
    update_hand_compact_animation now s =
      { s with
        hand_cards := pre ++ List.replicate pad none,
        hand_draw_anim := (if 0 < s.hand_compact_draw_count then
            ((s.deck.take s.hand_compact_draw_count).map normalizeCard).enum.map
              (fun q => DrawAnimEntry.mk q.2 (pre.length + q.1))
          else s.hand_draw_anim),
        hand_draw_start_time := (if 0 < s.hand_compact_draw_count then now
          else s.hand_draw_start_time),
        deck := s.deck.drop s.hand_compact_draw_count,
        pending_draws := 0,
        hand_compact_anim := [],
        hand_compact_target_hand := none,
        hand_compact_draw_count := 0 } := by
  unfold update_hand_compact_animation
  rcases hE : s.hand_compact_anim with _ | ⟨mv, mvs⟩
  · exact absurd hE hne
  · simp only []
    rw [if_pos hc, htg]
    simp only []
    by_cases hk0 : 0 < s.hand_compact_draw_count
    · have hpad : 0 < pad := by omega
      have hdl : 0 < s.deck.length := by omega
      rw [if_pos ⟨hk0, hdl, any_none_of_replicate pre pad hpad⟩]
      rw [first_free_hand_compacted pre pad hpad hpre]
      simp only []
      have hmin : min s.hand_compact_draw_count
          (min (s.hand - pre.length) s.deck.length) =
          s.hand_compact_draw_count := by
        rw [h72]
        omega
      rw [hmin, hbf2]
      simp [hk0]
    · have hk0e : s.hand_compact_draw_count = 0 := by omega
      rw [if_neg (by simp [hk0e])]
      simp [hk0e]

theorem map_some_normalize (l : List Nat) :
    (l.map normalizeCard).map (fun c => some (normalizeCard c)) =
      l.map (fun c => some (normalizeCard c)) := by
  rw [List.map_map]
  apply List.map_congr_left
  intro a _
  simp [Function.comp, normalizeCard_idem]

/-- C8: post-turn hand compaction left-shifts the remaining cards in order
(the compacted prefix is exactly `filterMap id` of the old hand), and then
exactly `min(drawCount, deckSize, emptySlotsAfterCompaction)` cards are
drawn from the front of the deck into the trailing empty slots; with an
empty deck or no free slots zero cards are drawn and nothing fails. -/
theorem C8_compaction_and_draw (now1 now2 now3 : Nat) (s : GState)
    (hbf : s.bottom_frame = true)
    (h7 : s.hand = 7)
    (hlen : s.hand_cards.length = 7)
    (hda : s.hand_draw_anim = [])
    (ht2 : now1 + hand_compact_duration ≤ now2)
    (ht3 : now2 + hand_draw_duration ≤ now3) :
    (existing_of s.hand_cards).map Prod.snd = s.hand_cards.filterMap id ∧
    (update_hand_draw_animation now3 (update_hand_compact_animation now2
        (draw_pending_cards now1 s))).hand_cards =
      (s.hand_cards.filterMap id).map some ++
        (s.deck.take (min s.Dobor (min s.deck.length
          (7 - (s.hand_cards.filterMap id).length)))).map
          (fun c => some (normalizeCard c)) ++
        List.replicate (7 - (s.hand_cards.filterMap id).length -
          min s.Dobor (min s.deck.length
            (7 - (s.hand_cards.filterMap id).length))) none ∧
    (update_hand_draw_animation now3 (update_hand_compact_animation now2
        (draw_pending_cards now1 s))).deck =
      s.deck.drop (min s.Dobor (min s.deck.length
        (7 - (s.hand_cards.filterMap id).length))) := by
  refine ⟨existing_of_map_snd s.hand_cards, ?_⟩
  have hn7 : (s.hand_cards.filterMap id).length ≤ 7 := by
    rw [← hlen]
    exact List.length_filterMap_le id s.hand_cards
  unfold draw_pending_cards
  simp only []
  rw [if_neg (by simp [h7]), if_neg (by simp [hbf])]
  by_cases hex : existing_of s.hand_cards = []
  · have hcards : s.hand_cards.filterMap id = [] :=
      (existing_of_eq_nil_iff _).mp hex
    rw [if_pos hex]
    by_cases hcond : 0 < s.Dobor ∧ 0 < s.deck.length ∧ 0 < s.hand
    · rw [if_pos hcond]
      rw [compact_noop _ _ rfl, draw_noop _ _ (by exact hda)]
      refine ⟨?_, ?_⟩
      · show fillFrom (List.replicate s.hand none) 0 _ = _
        rw [h7, hcards]
        rw [fillFrom_replicate _ _ (by simp; try omega)]
        simp [List.map_map]
        rfl
      · show s.deck.drop _ = _
        rw [h7, hcards]
        rfl
    · rw [if_neg hcond]
      rw [compact_noop _ _ rfl, draw_noop _ _ (by exact hda)]
      have hkzero : min s.Dobor (min s.deck.length
          (7 - (s.hand_cards.filterMap id).length)) = 0 := by
        rcases Nat.eq_zero_or_pos s.Dobor with hd | hd
        · simp [hd]
        · rcases Nat.eq_zero_or_pos s.deck.length with he | he
          · simp [he]
          · exact absurd ⟨hd, he, by omega⟩ hcond
      refine ⟨?_, ?_⟩
      · show s.hand_cards = _
        rw [hkzero, hcards]
        simp
        exact hand_all_none s.hand_cards hcards hlen
      · show s.deck = _
        rw [hkzero]
        simp
  · -- a non-empty hand: the compaction branch
    rw [if_neg hex]
    have hexlen : (existing_of s.hand_cards).length =
        (s.hand_cards.filterMap id).length := existing_of_length _
    have htake : (existing_of s.hand_cards).take s.hand =
        existing_of s.hand_cards := by
      apply List.take_of_length_le
      rw [hexlen, h7]
      exact hn7
    rw [htake]
    have htgt : (existing_of s.hand_cards).map (fun p => some p.2) =
        (s.hand_cards.filterMap id).map some := by
      rw [← existing_of_map_snd s.hand_cards, List.map_map]
      rfl
    have hkcode : (if 0 < s.hand - (existing_of s.hand_cards).length ∧
        0 < s.deck.length then
        min s.Dobor (min s.deck.length
          (s.hand - (existing_of s.hand_cards).length)) else 0) =
        min s.Dobor (min s.deck.length
          (7 - (s.hand_cards.filterMap id).length)) := by
      rw [hexlen, h7]
      split_ifs with hc
      · rfl
      · omega
    rw [hkcode, htgt, hexlen, h7]
    have hKd : min s.Dobor (min s.deck.length
        (7 - (s.hand_cards.filterMap id).length)) ≤ s.deck.length := by
      omega
    have hK7 : min s.Dobor (min s.deck.length
        (7 - (s.hand_cards.filterMap id).length)) ≤
        7 - (s.hand_cards.filterMap id).length := by
      omega
    by_cases hmv : ((existing_of s.hand_cards).enum.filterMap (fun q =>
        if q.2.1 = q.1 then none
        else some (CompactMove.mk q.2.2 q.2.1 q.1))) = []
    · rw [if_pos hmv]
      by_cases hk : 0 < min s.Dobor (min s.deck.length
          (7 - (s.hand_cards.filterMap id).length)) ∧ 0 < s.deck.length
      · rw [if_pos hk]
        rw [compact_noop _ _ rfl]
        rw [draw_fire _ _ (by
          simp only []
          intro hcon
          have h2 := congrArg List.length hcon
          simp only [List.length_map, List.enum_length, List.length_take,
            List.length_nil] at h2
          omega) (by simp only []; omega)]
        refine ⟨?_, rfl⟩
        show List.foldl _ _ _ = _
        rw [land _ _ _ _ (by simp) (by simp; try omega)]
        rw [map_some_normalize]
        have hlen2 : ((s.deck.take (min s.Dobor (min s.deck.length
            (7 - (s.hand_cards.filterMap id).length)))).map
            normalizeCard).length =
            min s.Dobor (min s.deck.length
              (7 - (s.hand_cards.filterMap id).length)) := by
          simp
          try omega
        rw [hlen2]
      · rw [if_neg hk]
        rw [compact_noop _ _ rfl, draw_noop _ _ (by exact hda)]
        have hK0 : min s.Dobor (min s.deck.length
            (7 - (s.hand_cards.filterMap id).length)) = 0 := by
          omega
        rw [hK0]
        refine ⟨?_, ?_⟩ <;> simp
    · rw [if_neg hmv]
      rw [compact_fire_spec now2 _
        ((s.hand_cards.filterMap id).map some)
        (7 - (s.hand_cards.filterMap id).length)
        (by
          intro x hx
          rcases List.mem_map.mp hx with ⟨c, _, hcx⟩
          subst hcx
          rfl)
        (by exact hmv) (by simp only []; omega) rfl (by exact hbf)
        (by simp only []; simp; omega) (by simp only []; omega)
        (by simp only []; omega)]
      by_cases hk0 : 0 < min s.Dobor (min s.deck.length
          (7 - (s.hand_cards.filterMap id).length))
      · rw [if_pos hk0, if_pos hk0]
        rw [draw_fire _ _ (by
          simp only []
          intro hcon
          have h2 := congrArg List.length hcon
          simp only [List.length_map, List.enum_length, List.length_take,
            List.length_nil] at h2
          omega) (by simp only []; omega)]
        refine ⟨?_, rfl⟩
        show List.foldl _ _ _ = _
        rw [land _ _ _ _ (by simp) (by simp; try omega)]
        rw [map_some_normalize]
        have hlen2 : ((s.deck.take (min s.Dobor (min s.deck.length
            (7 - (s.hand_cards.filterMap id).length)))).map
            normalizeCard).length =
            min s.Dobor (min s.deck.length
              (7 - (s.hand_cards.filterMap id).length)) := by
          simp
          try omega
        rw [hlen2]
      · have hK0 : min s.Dobor (min s.deck.length
            (7 - (s.hand_cards.filterMap id).length)) = 0 := by
          omega
        rw [if_neg hk0, if_neg hk0]
        rw [draw_noop _ _ (by exact hda)]
        rw [hK0]
        refine ⟨?_, ?_⟩ <;> simp


/-- Witness for C8 at a concrete session: hand `[3, _, 4, _, _, _, _]`,
deck `[5, 0]`, Dobor 2; after the pipeline the hand is
`[3, 4, 5, 100, _, _, _]` (the legacy id 0 normalised to 100) and the deck
is empty. -/
theorem C8_compaction_and_draw_witness :
    (update_hand_draw_animation 700 (update_hand_compact_animation 300
        (draw_pending_cards 0 c8State))).hand_cards =
      [some 3, some 4, some 5, some 100, none, none, none] ∧
    (update_hand_draw_animation 700 (update_hand_compact_animation 300
        (draw_pending_cards 0 c8State))).deck = [] := by
  have h := C8_compaction_and_draw 0 300 700 c8State rfl rfl (by decide) rfl
    (by decide) (by decide)
  refine ⟨?_, ?_⟩
  · rw [h.2.1]
    decide
  · rw [h.2.2]
    decide

end Bressoles
